import Mathlib

/-!
Verification of the Gauss-Legendre quadrature utility (`ChQuadrature.h`) and of
the numerical-differentiation constraint link (`ChLinkNumdiff.h`) of Project
Chrono, embedded over the real numbers.

The integration routines `Integrate1D`, `Integrate2D`, `Integrate3D` are
translated directly from the inline template code of `src/core/ChQuadrature.h`.
The contents of the quadrature tables (`ChQuadratureTables` constructor,
`glege_coef`, `glege_roots`, `GetStaticTables`) and the method bodies of
`ChLinkNumdiff` are declared but not implemented in the excerpt; those parts
are modelled from the specification and each such definition carries a doc
comment starting with `Modelled from the spec:`.
-/

open Polynomial MeasureTheory intervalIntegral

namespace chrono

noncomputable section

/-- The Rodrigues base polynomial `(x^2 - 1)^n`; its `n`-th derivative is (a
positive multiple of) the Legendre polynomial of degree `n`. -/
def legBase (n : ℕ) : Polynomial ℝ := (X ^ 2 - 1) ^ n

/-- Modelled from the spec: the Legendre polynomial of degree `n` (up to a
positive constant factor, which does not change its roots).  The repository
computes its coefficients by the standard recurrence in `glege_coef`, whose
body is not in the excerpt; here we use the equivalent Rodrigues form. -/
def legendreP (n : ℕ) : Polynomial ℝ := derivative^[n] (legBase n)

/-- Modelled from the spec: the set of Gauss-Legendre abscissas of order `n`,
i.e. the real roots of the degree-`n` Legendre polynomial. -/
def glroots (n : ℕ) : Finset ℝ := (legendreP n).roots.toFinset

/-- Modelled from the spec: the Gauss-Legendre integration weight associated
with the node `x` of the order-`n` rule: the integral over `[-1, 1]` of the
Lagrange basis polynomial of `x` with respect to the node set. -/
def glweight (n : ℕ) (x : ℝ) : ℝ :=
  ∫ t in (-1 : ℝ)..1, (Lagrange.basis (glroots n) id x).eval t

/-- Modelled from the spec: the node list of the order-`n` table, stored in
ascending order. -/
def glnodes (n : ℕ) : List ℝ := (glroots n).sort (· ≤ ·)

/-- Modelled from the spec: the weight list of the order-`n` table, aligned
with `glnodes`. -/
def glweights (n : ℕ) : List ℝ := (glnodes n).map (glweight n)

/-- The weighted quadrature sum of order `n` applied to an integrand `g` on
the canonical interval `[-1, 1]`. -/
def quadSum (n : ℕ) (g : ℝ → ℝ) : ℝ := ∑ x ∈ glroots n, glweight n x * g x

/-- The table store of `ChQuadrature.h`: `Weight` and `Lroots` hold, for each
order in the constructed range, the weight list and the root list. -/
structure ChQuadratureTables where
  Weight : List (List ℝ)
  Lroots : List (List ℝ)

/-- Modelled from the spec: the `ChQuadratureTables(order_from, order_to)`
constructor fills one root list and one weight list per order in
`[order_from, order_to]`, roots stored in ascending order. -/
def mkTables (order_from order_to : ℕ) : ChQuadratureTables :=
  { Weight := (List.range (order_to + 1 - order_from)).map fun i => glweights (order_from + i)
    Lroots := (List.range (order_to + 1 - order_from)).map fun i => glnodes (order_from + i) }

/-- Modelled from the spec: the shared static tables hold orders 1 to 10. -/
def GetStaticTables : ChQuadratureTables := mkTables 1 10

/-- Shallow embedding of `ChQuadrature::Integrate1D` (ChQuadrature.h lines
91-131) for real-valued integrands, `order` a nonnegative C++ `int`.  The
in-out parameter `result` is taken as an explicit initial value; the code
zeroes it with `result *= 0` before accumulating.  This is the value
component only: the dynamic-table branch of the source additionally calls
`mtables->PrintTables()` (line 110), an output side effect, which is modelled
by `Integrate1DTraced` below. -/
def Integrate1D (result : ℝ) (integrand : ℝ → ℝ) (a b : ℝ) (order : ℕ) : ℝ :=
  let tab : ChQuadratureTables :=
    if order ≤ GetStaticTables.Lroots.length then GetStaticTables else mkTables order order
  let idx : ℕ := if order ≤ GetStaticTables.Lroots.length then order - 1 else 0
  let lroots : List ℝ := (tab.Lroots[idx]?).getD []
  let weight : List ℝ := (tab.Weight[idx]?).getD []
  let c1 : ℝ := (b - a) / 2
  let c2 : ℝ := (b + a) / 2
  let sum : ℝ :=
    (lroots.zip weight).foldl (fun acc xw => acc + integrand (c1 * xw.1 + c2) * xw.2)
      (result * 0)
  sum * c1

/-- Shallow embedding of `ChQuadrature::Integrate2D` (ChQuadrature.h lines
136-181): tensor-product rule over the rectangle `[Xa, Xb] × [Ya, Yb]`.
Value component only; the dynamic-branch `PrintTables()` call (line 157) is
modelled by `Integrate2DTraced`. -/
def Integrate2D (result : ℝ) (integrand : ℝ → ℝ → ℝ) (Xa Xb Ya Yb : ℝ) (order : ℕ) : ℝ :=
  let tab : ChQuadratureTables :=
    if order ≤ GetStaticTables.Lroots.length then GetStaticTables else mkTables order order
  let idx : ℕ := if order ≤ GetStaticTables.Lroots.length then order - 1 else 0
  let lroots : List ℝ := (tab.Lroots[idx]?).getD []
  let weight : List ℝ := (tab.Weight[idx]?).getD []
  let Xc1 : ℝ := (Xb - Xa) / 2
  let Xc2 : ℝ := (Xb + Xa) / 2
  let Yc1 : ℝ := (Yb - Ya) / 2
  let Yc2 : ℝ := (Yb + Ya) / 2
  let lw : List (ℝ × ℝ) := lroots.zip weight
  let sum : ℝ :=
    lw.foldl
      (fun acc xw =>
        lw.foldl
          (fun acc2 yw =>
            acc2 + integrand (Xc1 * xw.1 + Xc2) (Yc1 * yw.1 + Yc2) * (xw.2 * yw.2))
          acc)
      (result * 0)
  sum * (Xc1 * Yc1)

/-- Shallow embedding of `ChQuadrature::Integrate3D` (ChQuadrature.h lines
186-237): tensor-product rule over the box `[Xa, Xb] × [Ya, Yb] × [Za, Zb]`.
Value component only; the dynamic-branch `PrintTables()` call (line 209) is
modelled by `Integrate3DTraced`. -/
def Integrate3D (result : ℝ) (integrand : ℝ → ℝ → ℝ → ℝ) (Xa Xb Ya Yb Za Zb : ℝ)
    (order : ℕ) : ℝ :=
  let tab : ChQuadratureTables :=
    if order ≤ GetStaticTables.Lroots.length then GetStaticTables else mkTables order order
  let idx : ℕ := if order ≤ GetStaticTables.Lroots.length then order - 1 else 0
  let lroots : List ℝ := (tab.Lroots[idx]?).getD []
  let weight : List ℝ := (tab.Weight[idx]?).getD []
  let Xc1 : ℝ := (Xb - Xa) / 2
  let Xc2 : ℝ := (Xb + Xa) / 2
  let Yc1 : ℝ := (Yb - Ya) / 2
  let Yc2 : ℝ := (Yb + Ya) / 2
  let Zc1 : ℝ := (Zb - Za) / 2
  let Zc2 : ℝ := (Zb + Za) / 2
  let lw : List (ℝ × ℝ) := lroots.zip weight
  let sum : ℝ :=
    lw.foldl
      (fun acc xw =>
        lw.foldl
          (fun acc2 yw =>
            lw.foldl
              (fun acc3 zw =>
                acc3 +
                  integrand (Xc1 * xw.1 + Xc2) (Yc1 * yw.1 + Yc2) (Zc1 * zw.1 + Zc2) *
                    (xw.2 * (yw.2 * zw.2)))
              acc2)
          acc)
      (result * 0)
  sum * (Xc1 * (Yc1 * Zc1))

/-- Modelled from the spec: `ChQuadratureTables::PrintTables` prints all the
tables of its receiver to `cout` for debugging and has no effect on
integration correctness (spec 4.1); its body is not in the excerpt.  We model
the observable output of one call as the dumped table itself. -/
def PrintTablesOutput (t : ChQuadratureTables) : List ChQuadratureTables := [t]

/-- Shallow embedding of `ChQuadrature::Integrate1D` (ChQuadrature.h lines
91-131) together with its observable output: in the dynamic-table branch the
code calls `mtables->PrintTables()` (line 110), which prints the freshly
constructed table to `cout`.  The second component is the output emitted
during the call (empty in the static branch). -/
def Integrate1DTraced (result : ℝ) (integrand : ℝ → ℝ) (a b : ℝ) (order : ℕ) :
    ℝ × List ChQuadratureTables :=
  let tab : ChQuadratureTables :=
    if order ≤ GetStaticTables.Lroots.length then GetStaticTables else mkTables order order
  let printed : List ChQuadratureTables :=
    if order ≤ GetStaticTables.Lroots.length then [] else PrintTablesOutput tab
  let idx : ℕ := if order ≤ GetStaticTables.Lroots.length then order - 1 else 0
  let lroots : List ℝ := (tab.Lroots[idx]?).getD []
  let weight : List ℝ := (tab.Weight[idx]?).getD []
  let c1 : ℝ := (b - a) / 2
  let c2 : ℝ := (b + a) / 2
  let sum : ℝ :=
    (lroots.zip weight).foldl (fun acc xw => acc + integrand (c1 * xw.1 + c2) * xw.2)
      (result * 0)
  (sum * c1, printed)

/-- `Integrate2D` with its observable output: the dynamic-table branch calls
`mtables->PrintTables()` (ChQuadrature.h line 157). -/
def Integrate2DTraced (result : ℝ) (integrand : ℝ → ℝ → ℝ) (Xa Xb Ya Yb : ℝ)
    (order : ℕ) : ℝ × List ChQuadratureTables :=
  let tab : ChQuadratureTables :=
    if order ≤ GetStaticTables.Lroots.length then GetStaticTables else mkTables order order
  let printed : List ChQuadratureTables :=
    if order ≤ GetStaticTables.Lroots.length then [] else PrintTablesOutput tab
  let idx : ℕ := if order ≤ GetStaticTables.Lroots.length then order - 1 else 0
  let lroots : List ℝ := (tab.Lroots[idx]?).getD []
  let weight : List ℝ := (tab.Weight[idx]?).getD []
  let Xc1 : ℝ := (Xb - Xa) / 2
  let Xc2 : ℝ := (Xb + Xa) / 2
  let Yc1 : ℝ := (Yb - Ya) / 2
  let Yc2 : ℝ := (Yb + Ya) / 2
  let lw : List (ℝ × ℝ) := lroots.zip weight
  let sum : ℝ :=
    lw.foldl
      (fun acc xw =>
        lw.foldl
          (fun acc2 yw =>
            acc2 + integrand (Xc1 * xw.1 + Xc2) (Yc1 * yw.1 + Yc2) * (xw.2 * yw.2))
          acc)
      (result * 0)
  (sum * (Xc1 * Yc1), printed)

/-- `Integrate3D` with its observable output: the dynamic-table branch calls
`mtables->PrintTables()` (ChQuadrature.h line 209). -/
def Integrate3DTraced (result : ℝ) (integrand : ℝ → ℝ → ℝ → ℝ) (Xa Xb Ya Yb Za Zb : ℝ)
    (order : ℕ) : ℝ × List ChQuadratureTables :=
  let tab : ChQuadratureTables :=
    if order ≤ GetStaticTables.Lroots.length then GetStaticTables else mkTables order order
  let printed : List ChQuadratureTables :=
    if order ≤ GetStaticTables.Lroots.length then [] else PrintTablesOutput tab
  let idx : ℕ := if order ≤ GetStaticTables.Lroots.length then order - 1 else 0
  let lroots : List ℝ := (tab.Lroots[idx]?).getD []
  let weight : List ℝ := (tab.Weight[idx]?).getD []
  let Xc1 : ℝ := (Xb - Xa) / 2
  let Xc2 : ℝ := (Xb + Xa) / 2
  let Yc1 : ℝ := (Yb - Ya) / 2
  let Yc2 : ℝ := (Yb + Ya) / 2
  let Zc1 : ℝ := (Zb - Za) / 2
  let Zc2 : ℝ := (Zb + Za) / 2
  let lw : List (ℝ × ℝ) := lroots.zip weight
  let sum : ℝ :=
    lw.foldl
      (fun acc xw =>
        lw.foldl
          (fun acc2 yw =>
            lw.foldl
              (fun acc3 zw =>
                acc3 +
                  integrand (Xc1 * xw.1 + Xc2) (Yc1 * yw.1 + Yc2) (Zc1 * zw.1 + Zc2) *
                    (xw.2 * (yw.2 * zw.2)))
              acc2)
          acc)
      (result * 0)
  (sum * (Xc1 * (Yc1 * Zc1)), printed)

/-- Failure modes of the integration routines when given an order outside the
defined range: an out-of-bounds vector subscript, or construction of a table
with `order_from < 1` (undefined behavior per the spec). -/
inductive QuadErr where
  | oobIndex : QuadErr
  | ubConstruct : QuadErr
deriving DecidableEq

/-- The C++ conversion `(unsigned int)order` applied to a (signed) `int`. -/
def toUInt32Z (order : ℤ) : ℕ := (order % (2 ^ 32 : ℤ)).toNat

/-- `std::vector` subscript with a C++ `int` index: a negative or too-large
index is out of bounds. -/
def atZ {α : Type} (l : List α) (i : ℤ) : Option α :=
  if 0 ≤ i then l[i.toNat]? else none

/-- Modelled from the spec: the table constructor requires
`1 ≤ order_from ≤ order_to`; anything else is undefined behavior. -/
def mkTablesChecked (order_from order_to : ℤ) : Except QuadErr ChQuadratureTables :=
  if 1 ≤ order_from ∧ order_from ≤ order_to then
    Except.ok (mkTables order_from.toNat order_to.toNat)
  else Except.error QuadErr.ubConstruct

/-- The table-selection branch shared by `Integrate1D/2D/3D` (ChQuadrature.h
lines 98-114), with every subscript checked: for
`(unsigned int)order ≤ Lroots.size()` the static tables are indexed at
`order - 1` (an `int` index); otherwise a private single-order table is
constructed and indexed at 0. -/
def selectTables (order : ℤ) : Except QuadErr (List ℝ × List ℝ) :=
  if toUInt32Z order ≤ GetStaticTables.Lroots.length then
    match atZ GetStaticTables.Lroots (order - 1), atZ GetStaticTables.Weight (order - 1) with
    | some lr, some w => Except.ok (lr, w)
    | _, _ => Except.error QuadErr.oobIndex
  else
    match mkTablesChecked order order with
    | Except.error e => Except.error e
    | Except.ok tab =>
      match atZ tab.Lroots 0, atZ tab.Weight 0 with
      | some lr, some w => Except.ok (lr, w)
      | _, _ => Except.error QuadErr.oobIndex

/-- The accumulation loop of `Integrate1D` with the per-node accesses
`lroots->at(i)`, `weight->at(i)` checked: iterating the root list while
popping the weight list errs exactly when `weight` is shorter than
`lroots`. -/
def sumNodes (f : ℝ → ℝ) (c1 c2 : ℝ) : List ℝ → List ℝ → ℝ → Except QuadErr ℝ
  | [], _, acc => Except.ok acc
  | _ :: _, [], _ => Except.error QuadErr.oobIndex
  | x :: xs, w :: ws, acc => sumNodes f c1 c2 xs ws (acc + f (c1 * x + c2) * w)

/-- The nested accumulation loop of `Integrate2D`, checked as `sumNodes`. -/
def sumNodes2D (f : ℝ → ℝ → ℝ) (Xc1 Xc2 Yc1 Yc2 : ℝ) (lroots weight : List ℝ) :
    List ℝ → List ℝ → ℝ → Except QuadErr ℝ
  | [], _, acc => Except.ok acc
  | _ :: _, [], _ => Except.error QuadErr.oobIndex
  | x :: xs, w :: ws, acc =>
    match sumNodes (fun y => f (Xc1 * x + Xc2) y * w) Yc1 Yc2 lroots weight acc with
    | Except.error e => Except.error e
    | Except.ok acc2 => sumNodes2D f Xc1 Xc2 Yc1 Yc2 lroots weight xs ws acc2

/-- The triply nested accumulation loop of `Integrate3D`, checked. -/
def sumNodes3D (f : ℝ → ℝ → ℝ → ℝ) (Xc1 Xc2 Yc1 Yc2 Zc1 Zc2 : ℝ) (lroots weight : List ℝ) :
    List ℝ → List ℝ → ℝ → Except QuadErr ℝ
  | [], _, acc => Except.ok acc
  | _ :: _, [], _ => Except.error QuadErr.oobIndex
  | x :: xs, w :: ws, acc =>
    match sumNodes2D (fun y z => f (Xc1 * x + Xc2) y z * w) Yc1 Yc2 Zc1 Zc2 lroots weight
        lroots weight acc with
    | Except.error e => Except.error e
    | Except.ok acc2 => sumNodes3D f Xc1 Xc2 Yc1 Yc2 Zc1 Zc2 lroots weight xs ws acc2

/-- `Integrate1D` with every table access checked and `order` ranging over the
C++ `int` values; mirrors ChQuadrature.h lines 91-131. -/
def Integrate1DChecked (result : ℝ) (integrand : ℝ → ℝ) (a b : ℝ) (order : ℤ) :
    Except QuadErr ℝ :=
  match selectTables order with
  | Except.error e => Except.error e
  | Except.ok lrw =>
    let c1 : ℝ := (b - a) / 2
    let c2 : ℝ := (b + a) / 2
    match sumNodes integrand c1 c2 lrw.1 lrw.2 (result * 0) with
    | Except.error e => Except.error e
    | Except.ok s => Except.ok (s * c1)

/-- `Integrate2D` with every table access checked. -/
def Integrate2DChecked (result : ℝ) (integrand : ℝ → ℝ → ℝ) (Xa Xb Ya Yb : ℝ) (order : ℤ) :
    Except QuadErr ℝ :=
  match selectTables order with
  | Except.error e => Except.error e
  | Except.ok lrw =>
    let Xc1 : ℝ := (Xb - Xa) / 2
    let Xc2 : ℝ := (Xb + Xa) / 2
    let Yc1 : ℝ := (Yb - Ya) / 2
    let Yc2 : ℝ := (Yb + Ya) / 2
    match sumNodes2D integrand Xc1 Xc2 Yc1 Yc2 lrw.1 lrw.2 lrw.1 lrw.2 (result * 0) with
    | Except.error e => Except.error e
    | Except.ok s => Except.ok (s * (Xc1 * Yc1))

/-- `Integrate3D` with every table access checked. -/
def Integrate3DChecked (result : ℝ) (integrand : ℝ → ℝ → ℝ → ℝ) (Xa Xb Ya Yb Za Zb : ℝ)
    (order : ℤ) : Except QuadErr ℝ :=
  match selectTables order with
  | Except.error e => Except.error e
  | Except.ok lrw =>
    let Xc1 : ℝ := (Xb - Xa) / 2
    let Xc2 : ℝ := (Xb + Xa) / 2
    let Yc1 : ℝ := (Yb - Ya) / 2
    let Yc2 : ℝ := (Yb + Ya) / 2
    let Zc1 : ℝ := (Zb - Za) / 2
    let Zc2 : ℝ := (Zb + Za) / 2
    match sumNodes3D integrand Xc1 Xc2 Yc1 Yc2 Zc1 Zc2 lrw.1 lrw.2 lrw.1 lrw.2 (result * 0) with
    | Except.error e => Except.error e
    | Except.ok s => Except.ok (s * (Xc1 * (Yc1 * Zc1)))

/-- Modelled from the spec: the external body state written and read by
`ChLinkNumdiff` — a coordinate vector (default 14 entries: positions and
quaternions of the two linked bodies) together with the simulation time. -/
structure BodyState where
  coords : List ℝ
  time : ℝ

/-- Modelled from the spec: `ImposeCoords` writes a trial coordinate/time pair
into the external body representation, replacing the current state. -/
def ImposeCoords (mc : List ℝ) (t : ℝ) (_s : BodyState) : BodyState := ⟨mc, t⟩

/-- Modelled from the spec: `FetchCoords` reads the current positions back. -/
def FetchCoords (s : BodyState) : List ℝ := s.coords

/-- Modelled from the spec: the default `ComputeC` of `ChLinkNumdiff` returns
the zero residual vector (`doc` = number of constraint equations) for every
imposed state — no particular constraint. -/
def defaultComputeC (doc : ℕ) : BodyState → Except String (List ℝ) :=
  fun _ => Except.ok (List.replicate doc 0)

/-- The outputs of `UpdateState`: residual `C`, time derivative `Ct`, and the
Jacobian columns `Cq` (one per perturbed coordinate). -/
structure NumdiffOut where
  resid : List ℝ
  Ct : List ℝ
  Cq : List (List ℝ)

/-- A finite-difference quotient of residual vectors: `(rj - r0) / eps`
componentwise. -/
def fdColumn (r0 rj : List ℝ) (eps : ℝ) : List ℝ :=
  (rj.zip r0).map fun p => (p.1 - p.2) / eps

/-- Perturbation of the `j`-th coordinate by `eps`. -/
def perturbCoord (q : List ℝ) (j : ℕ) (eps : ℝ) : List ℝ :=
  q.set j (q.getD j 0 + eps)

/-- Modelled from the spec: the Jacobian loop of `ComputeCq` — perturb each
coordinate in turn, re-impose the state, recompute the residual, difference
against the unperturbed residual.  The body state is threaded through and an
error during residual evaluation aborts the loop. -/
def computeCqLoop {ε : Type} (C : BodyState → Except ε (List ℝ)) (q0 : List ℝ) (t eps : ℝ)
    (r0 : List ℝ) : List ℕ → BodyState → Except ε (List (List ℝ)) × BodyState
  | [], s => (Except.ok [], s)
  | j :: js, s =>
    let s1 := ImposeCoords (perturbCoord q0 j eps) t s
    match C s1 with
    | Except.error e => (Except.error e, s1)
    | Except.ok rj =>
      match computeCqLoop C q0 t eps r0 js s1 with
      | (Except.error e, s2) => (Except.error e, s2)
      | (Except.ok cols, s2) => (Except.ok (fdColumn r0 rj eps :: cols), s2)

/-- Modelled from the spec: `ChLinkNumdiff::UpdateState` — impose the nominal
state `(q0, t)`, evaluate the residual, obtain `Ct` by a forward difference in
time and the Jacobian columns by forward differences in each coordinate, and
re-impose the nominal state before returning on every exit path, including
after an error during residual evaluation. -/
def UpdateState {ε : Type} (C : BodyState → Except ε (List ℝ)) (q0 : List ℝ) (t eps : ℝ)
    (s0 : BodyState) : Except ε NumdiffOut × BodyState :=
  let s1 := ImposeCoords q0 t s0
  match C s1 with
  | Except.error e => (Except.error e, ImposeCoords q0 t s1)
  | Except.ok r0 =>
    let s2 := ImposeCoords q0 (t + eps) s1
    match C s2 with
    | Except.error e => (Except.error e, ImposeCoords q0 t s2)
    | Except.ok rt =>
      match computeCqLoop C q0 t eps r0 (List.range q0.length) s2 with
      | (Except.error e, s3) => (Except.error e, ImposeCoords q0 t s3)
      | (Except.ok cols, s3) =>
        (Except.ok ⟨r0, fdColumn r0 rt eps, cols⟩, ImposeCoords q0 t s3)

/-! ### Basic bookkeeping lemmas -/

theorem foldl_add_eq {α : Type} (g : α → ℝ) :
    ∀ (l : List α) (init : ℝ),
      l.foldl (fun acc p => acc + g p) init = init + (l.map g).sum := by
  intro l
  induction l with
  | nil => intro init; simp
  | cons x xs ih =>
    intro init
    simp only [List.foldl_cons, List.map_cons, List.sum_cons]
    rw [ih]
    ring

theorem zip_glnodes_glweights (n : ℕ) :
    (glnodes n).zip (glweights n) = (glnodes n).map fun x => (x, glweight n x) := by
  conv_lhs => rw [show glnodes n = (glnodes n).map id from (List.map_id _).symm]
  rw [glweights, List.zip_map']
  simp

theorem coe_glnodes (n : ℕ) : ((glnodes n : List ℝ) : Multiset ℝ) = (glroots n).val := by
  rw [glnodes]
  exact Multiset.sort_eq _ _

theorem sum_glnodes_map (n : ℕ) (h : ℝ → ℝ) :
    ((glnodes n).map h).sum = ∑ x ∈ glroots n, h x := by
  rw [Finset.sum, ← coe_glnodes]
  simp

theorem length_static_tables : GetStaticTables.Lroots.length = 10 := by
  simp [GetStaticTables, mkTables]

theorem static_row (k : ℕ) (hk : k < 10) :
    GetStaticTables.Lroots[k]? = some (glnodes (1 + k)) ∧
      GetStaticTables.Weight[k]? = some (glweights (1 + k)) := by
  constructor <;> simp [GetStaticTables, mkTables, List.getElem?_map, List.getElem?_range, hk]

theorem single_row (m : ℕ) :
    (mkTables m m).Lroots[0]? = some (glnodes m) ∧
      (mkTables m m).Weight[0]? = some (glweights m) := by
  constructor <;> simp [mkTables, List.getElem?_map, List.getElem?_range]

theorem zipfold_eq (n : ℕ) (g : ℝ → ℝ) (init : ℝ) :
    ((glnodes n).zip (glweights n)).foldl (fun acc xw => acc + g xw.1 * xw.2) init
      = init + quadSum n g := by
  rw [zip_glnodes_glweights]
  rw [show (fun (acc : ℝ) (xw : ℝ × ℝ) => acc + g xw.1 * xw.2)
      = fun acc xw => acc + (fun p : ℝ × ℝ => g p.1 * p.2) xw from rfl]
  rw [foldl_add_eq, List.map_map]
  rw [show ((fun p : ℝ × ℝ => g p.1 * p.2) ∘ fun x => (x, glweight n x))
      = fun x => g x * glweight n x from rfl]
  rw [sum_glnodes_map, quadSum]
  congr 1
  exact Finset.sum_congr rfl fun x _ => mul_comm _ _

/-- Specialization of `zipfold_eq` to the loop shape of `Integrate1D`. -/
theorem zipfold_affine (n : ℕ) (f : ℝ → ℝ) (c1 c2 init : ℝ) :
    ((glnodes n).zip (glweights n)).foldl
        (fun acc xw => acc + f (c1 * xw.1 + c2) * xw.2) init
      = init + quadSum n fun x => f (c1 * x + c2) :=
  zipfold_eq n (fun x => f (c1 * x + c2)) init

/-- Table selection inside `Integrate1D/2D/3D` for a valid order: both
branches deliver exactly the order-`order` node and weight lists. -/
theorem selected_rows (order : ℕ) (h : 1 ≤ order) :
    ((if order ≤ GetStaticTables.Lroots.length then GetStaticTables
        else mkTables order order).Lroots[
          if order ≤ GetStaticTables.Lroots.length then order - 1 else 0]?).getD []
        = glnodes order ∧
      ((if order ≤ GetStaticTables.Lroots.length then GetStaticTables
        else mkTables order order).Weight[
          if order ≤ GetStaticTables.Lroots.length then order - 1 else 0]?).getD []
        = glweights order := by
  by_cases hord : order ≤ GetStaticTables.Lroots.length
  · have h10 : order ≤ 10 := by rwa [length_static_tables] at hord
    have hk : order - 1 < 10 := by omega
    have hrow := static_row (order - 1) hk
    have hfix : 1 + (order - 1) = order := by omega
    rw [hfix] at hrow
    simp [hord, hrow.1, hrow.2]
  · have hrow := single_row order
    simp [hord, hrow.1, hrow.2]

/-- Reduction of `Integrate1D` to the abstract quadrature sum. -/
theorem Integrate1D_eq_quadSum (r : ℝ) (f : ℝ → ℝ) (a b : ℝ) (order : ℕ) (h : 1 ≤ order) :
    Integrate1D r f a b order
      = quadSum order (fun x => f ((b - a) / 2 * x + (b + a) / 2)) * ((b - a) / 2) := by
  have hsel := selected_rows order h
  simp only [Integrate1D]
  rw [hsel.1, hsel.2, zipfold_affine, mul_zero, zero_add]

/-! ### The checked access path: table selection and loops -/

theorem sumNodes_eq (f : ℝ → ℝ) (c1 c2 : ℝ) :
    ∀ (xs ws : List ℝ) (acc : ℝ), xs.length ≤ ws.length →
      sumNodes f c1 c2 xs ws acc
        = Except.ok ((xs.zip ws).foldl (fun a xw => a + f (c1 * xw.1 + c2) * xw.2) acc) := by
  intro xs
  induction xs with
  | nil => intro ws acc _; rw [sumNodes]; simp
  | cons x xs ih =>
    intro ws acc hlen
    cases ws with
    | nil => simp at hlen
    | cons w ws =>
      rw [sumNodes, List.zip_cons_cons, List.foldl_cons]
      exact ih ws _ (by simpa using hlen)

theorem sumNodes_ok (f : ℝ → ℝ) (c1 c2 : ℝ) (xs ws : List ℝ) (acc : ℝ)
    (hlen : xs.length ≤ ws.length) : ∃ v, sumNodes f c1 c2 xs ws acc = Except.ok v :=
  ⟨_, sumNodes_eq f c1 c2 xs ws acc hlen⟩

theorem sumNodes2D_ok (f : ℝ → ℝ → ℝ) (Xc1 Xc2 Yc1 Yc2 : ℝ) (lroots weight : List ℝ)
    (hin : lroots.length ≤ weight.length) :
    ∀ (xs ws : List ℝ) (acc : ℝ), xs.length ≤ ws.length →
      ∃ v, sumNodes2D f Xc1 Xc2 Yc1 Yc2 lroots weight xs ws acc = Except.ok v := by
  intro xs
  induction xs with
  | nil => intro ws acc _; exact ⟨acc, rfl⟩
  | cons x xs ih =>
    intro ws acc hlen
    cases ws with
    | nil => simp at hlen
    | cons w ws =>
      obtain ⟨v1, hv1⟩ := sumNodes_ok (fun y => f (Xc1 * x + Xc2) y * w) Yc1 Yc2
        lroots weight acc hin
      obtain ⟨v2, hv2⟩ := ih ws v1 (by simpa using hlen)
      refine ⟨v2, ?_⟩
      rw [sumNodes2D, hv1]
      exact hv2

theorem sumNodes3D_ok (f : ℝ → ℝ → ℝ → ℝ) (Xc1 Xc2 Yc1 Yc2 Zc1 Zc2 : ℝ)
    (lroots weight : List ℝ) (hin : lroots.length ≤ weight.length) :
    ∀ (xs ws : List ℝ) (acc : ℝ), xs.length ≤ ws.length →
      ∃ v, sumNodes3D f Xc1 Xc2 Yc1 Yc2 Zc1 Zc2 lroots weight xs ws acc = Except.ok v := by
  intro xs
  induction xs with
  | nil => intro ws acc _; exact ⟨acc, rfl⟩
  | cons x xs ih =>
    intro ws acc hlen
    cases ws with
    | nil => simp at hlen
    | cons w ws =>
      obtain ⟨v1, hv1⟩ := sumNodes2D_ok (fun y z => f (Xc1 * x + Xc2) y z * w) Yc1 Yc2 Zc1 Zc2
        lroots weight hin lroots weight acc hin
      obtain ⟨v2, hv2⟩ := ih ws v1 (by simpa using hlen)
      refine ⟨v2, ?_⟩
      rw [sumNodes3D, hv1]
      exact hv2

theorem length_glweights (n : ℕ) : (glweights n).length = (glnodes n).length := by
  simp [glweights]

/-- For a valid in-range C++ `int` order, `selectTables` finds the static rows
of exactly that order. -/
theorem selectTables_valid (order : ℤ) (h1 : 1 ≤ order) (h2 : order < 2 ^ 31) :
    selectTables order = Except.ok (glnodes order.toNat, glweights order.toNat) := by
  have hmod : order % 2 ^ 32 = order := by omega
  have hcast : toUInt32Z order = order.toNat := by rw [toUInt32Z, hmod]
  rw [selectTables, hcast, length_static_tables]
  by_cases h10 : order.toNat ≤ 10
  · rw [if_pos h10]
    have hge : (0 : ℤ) ≤ order - 1 := by omega
    have hlt : (order - 1).toNat < 10 := by omega
    have hrow := static_row (order - 1).toNat hlt
    have hfix : 1 + (order - 1).toNat = order.toNat := by omega
    rw [hfix] at hrow
    rw [atZ, if_pos hge, atZ, if_pos hge, hrow.1, hrow.2]
  · rw [if_neg h10, mkTablesChecked, if_pos ⟨h1, le_refl order⟩]
    have hrow := single_row order.toNat
    have h0r : atZ (mkTables order.toNat order.toNat).Lroots 0 = some (glnodes order.toNat) := by
      rw [atZ, if_pos le_rfl]
      exact hrow.1
    have h0w : atZ (mkTables order.toNat order.toNat).Weight 0
        = some (glweights order.toNat) := by
      rw [atZ, if_pos le_rfl]
      exact hrow.2
    simp only [h0r, h0w]


/-- Counterexample to C3 as stated: the claim says the calls perform no side
effects, but with order 11 the dynamic-table branch of `Integrate1D` calls
`mtables->PrintTables()` (ChQuadrature.h line 110), so the call's observable
output is nonempty — it prints the constructed single-order table. -/
theorem C3_side_effect_counterexample :
    (Integrate1DTraced 0 (fun x => x) 0 1 11).2 = [mkTables 11 11] ∧
    (Integrate1DTraced 0 (fun x => x) 0 1 11).2 ≠ [] := by
  have h : ¬(11 ≤ GetStaticTables.Lroots.length) := by
    rw [length_static_tables]
    omega
  constructor
  · simp [Integrate1DTraced, h, PrintTablesOutput]
  · simp [Integrate1DTraced, h, PrintTablesOutput]

/-- C3 (amended): `Integrate1D`, `Integrate2D`, and `Integrate3D` are pure
functions of the integrand, the bounds, the order and the tables: the
incoming value of the in-out `result` parameter has no effect on the returned
value or on the emitted output (the accumulation starts from a zeroed
result), and two calls with the same inputs return the same result.  For
orders within the static table range the calls perform no side effects; in
the dynamic-table branch (order > 10) the one side effect is printing the
constructed single-order table via `mtables->PrintTables()` (ChQuadrature.h
lines 110, 157, 209), which does not affect the returned value: the value
component always coincides with the effect-free `Integrate1D/2D/3D`. -/
theorem C3_integrate_pure (r r' : ℝ) (f1 : ℝ → ℝ) (f2 : ℝ → ℝ → ℝ) (f3 : ℝ → ℝ → ℝ → ℝ)
    (xa xb ya yb za zb : ℝ) (order : ℕ) :
    (Integrate1DTraced r f1 xa xb order = Integrate1DTraced r' f1 xa xb order ∧
      Integrate2DTraced r f2 xa xb ya yb order = Integrate2DTraced r' f2 xa xb ya yb order ∧
      Integrate3DTraced r f3 xa xb ya yb za zb order
        = Integrate3DTraced r' f3 xa xb ya yb za zb order) ∧
    (Integrate1DTraced r f1 xa xb order).1 = Integrate1D r f1 xa xb order ∧
    (Integrate2DTraced r f2 xa xb ya yb order).1 = Integrate2D r f2 xa xb ya yb order ∧
    (Integrate3DTraced r f3 xa xb ya yb za zb order).1
        = Integrate3D r f3 xa xb ya yb za zb order ∧
    (order ≤ 10 →
      (Integrate1DTraced r f1 xa xb order).2 = [] ∧
      (Integrate2DTraced r f2 xa xb ya yb order).2 = [] ∧
      (Integrate3DTraced r f3 xa xb ya yb za zb order).2 = []) ∧
    (10 < order →
      (Integrate1DTraced r f1 xa xb order).2 = [mkTables order order] ∧
      (Integrate2DTraced r f2 xa xb ya yb order).2 = [mkTables order order] ∧
      (Integrate3DTraced r f3 xa xb ya yb za zb order).2 = [mkTables order order]) := by
  refine ⟨⟨?_, ?_, ?_⟩, ?_, ?_, ?_, fun hle => ⟨?_, ?_, ?_⟩, fun hgt => ⟨?_, ?_, ?_⟩⟩
  · simp [Integrate1DTraced]
  · simp [Integrate2DTraced]
  · simp [Integrate3DTraced]
  · simp [Integrate1DTraced, Integrate1D]
  · simp [Integrate2DTraced, Integrate2D]
  · simp [Integrate3DTraced, Integrate3D]
  all_goals
    first
      | (have hcond : order ≤ GetStaticTables.Lroots.length := by
           rw [length_static_tables]; omega
         simp [Integrate1DTraced, Integrate2DTraced, Integrate3DTraced, hcond])
      | (have hcond : ¬(order ≤ GetStaticTables.Lroots.length) := by
           rw [length_static_tables]; omega
         simp [Integrate1DTraced, Integrate2DTraced, Integrate3DTraced, hcond,
           PrintTablesOutput])

/-- Witness for the amended C3, exercising the static branch at order 5 and
the dynamic (printing) branch at order 11. -/
theorem C3_integrate_pure_witness :
    (Integrate1DTraced 0 (fun x => x) 0 1 5).2 = [] ∧
    (Integrate1DTraced 0 (fun x => x) 0 1 11).2 = [mkTables 11 11] ∧
    Integrate1DTraced 0 (fun x => x) 0 1 5 = Integrate1DTraced 1 (fun x => x) 0 1 5 := by
  refine ⟨((C3_integrate_pure 0 0 (fun x => x) (fun x y => x * y) (fun x y z => x * y * z)
      0 1 0 1 0 1 5).2.2.2.2.1 (by norm_num)).1, ?_, ?_⟩
  · exact ((C3_integrate_pure 0 0 (fun x => x) (fun x y => x * y) (fun x y z => x * y * z)
      0 1 0 1 0 1 11).2.2.2.2.2 (by norm_num)).1
  · exact (C3_integrate_pure 0 1 (fun x => x) (fun x y => x * y) (fun x y z => x * y * z)
      0 1 0 1 0 1 5).1.1

/-- C10: over a degenerate interval with equal bounds the half-width factor
`(b - a) / 2` is zero, so `Integrate1D` returns the zero of the result type
for every integrand and every order in the static range. -/
theorem C10_degenerate_interval (r a : ℝ) (f : ℝ → ℝ) (order : ℕ)
    (h : 1 ≤ order ∧ order ≤ 10) : Integrate1D r f a a order = 0 := by
  simp [Integrate1D]

/-- Witness for C10 at a concrete input. -/
theorem C10_degenerate_interval_witness :
    Integrate1D 0 (fun _ => (1 : ℝ)) 3 3 5 = 0 :=
  C10_degenerate_interval 0 3 (fun _ => (1 : ℝ)) 5 ⟨by norm_num, by norm_num⟩

/-! ### C2, C6: fallback path and access safety -/

/-- Bridge: for a valid C++ `int` order the checked `Integrate1D` succeeds and
agrees with the total embedding. -/
theorem Integrate1DChecked_eq (r : ℝ) (f : ℝ → ℝ) (a b : ℝ) (order : ℤ)
    (h1 : 1 ≤ order) (h2 : order < 2 ^ 31) :
    Integrate1DChecked r f a b order = Except.ok (Integrate1D r f a b order.toNat) := by
  simp only [Integrate1DChecked, selectTables_valid order h1 h2]
  have hlen : (glnodes order.toNat).length ≤ (glweights order.toNat).length :=
    (length_glweights order.toNat).ge
  rw [sumNodes_eq f ((b - a) / 2) ((b + a) / 2) _ _ _ hlen]
  have hsel := selected_rows order.toNat (by omega)
  simp only [Integrate1D]
  rw [hsel.1, hsel.2]

theorem selectTables_zero : selectTables 0 = Except.error QuadErr.oobIndex := by
  have h0 : toUInt32Z 0 = 0 := by rw [toUInt32Z]; simp
  rw [selectTables, h0, length_static_tables, if_pos (by norm_num)]
  have hneg : atZ GetStaticTables.Lroots ((0 : ℤ) - 1) = none := by
    rw [atZ, if_neg (by norm_num)]
  have hnegw : atZ GetStaticTables.Weight ((0 : ℤ) - 1) = none := by
    rw [atZ, if_neg (by norm_num)]
  simp only [hneg, hnegw]

theorem selectTables_neg (order : ℤ) (hlo : -2 ^ 31 ≤ order) (hneg : order < 0) :
    selectTables order = Except.error QuadErr.ubConstruct := by
  have hgt : ¬toUInt32Z order ≤ GetStaticTables.Lroots.length := by
    rw [length_static_tables, toUInt32Z]
    omega
  rw [selectTables, if_neg hgt, mkTablesChecked, if_neg (fun h => absurd h.1 (by omega))]

/-- C2: for every integrand and bounds and every order strictly greater than
the static maximum 10 (within the C++ `int` range), `Integrate1D` does not
crash: the table-selection branch builds a private single-order table holding
exactly that order, and the returned value is the Gauss-Legendre rule of that
exact order. -/
theorem C2_dynamic_fallback (r : ℝ) (f : ℝ → ℝ) (a b : ℝ) (order : ℤ)
    (h10 : 10 < order) (hint : order < 2 ^ 31) :
    selectTables order = Except.ok (glnodes order.toNat, glweights order.toNat) ∧
    Integrate1DChecked r f a b order
      = Except.ok
          (quadSum order.toNat (fun x => f ((b - a) / 2 * x + (b + a) / 2))
            * ((b - a) / 2)) := by
  refine ⟨selectTables_valid order (by omega) hint, ?_⟩
  rw [Integrate1DChecked_eq r f a b order (by omega) hint,
    Integrate1D_eq_quadSum r f a b order.toNat (by omega)]

/-- Witness for C2 at order 11. -/
theorem C2_dynamic_fallback_witness :
    selectTables 11 = Except.ok (glnodes (11 : ℤ).toNat, glweights (11 : ℤ).toNat) ∧
    Integrate1DChecked 0 (fun x => x) 0 1 11
      = Except.ok
          (quadSum (11 : ℤ).toNat (fun x => (1 - 0) / 2 * x + (1 + 0) / 2)
            * ((1 - 0) / 2)) :=
  C2_dynamic_fallback 0 (fun x => x) 0 1 11 (by norm_num) (by norm_num)

/-- C6: for every order in the static range 1..10 all table accesses of
`Integrate1D/2D/3D` (the row accesses at `order - 1` and the per-node `at(i)`
accesses) are in bounds, so the checked routines succeed; for `order < 1`
there is no explicit invalid-argument rejection — the routines fail through
an invalid access: at `order = 0` the static-row subscript `order - 1` is out
of bounds, and for negative orders the cast `(unsigned int)order` sends the
call into the dynamic branch whose table construction is undefined behavior
per the spec. -/
theorem C6_access_safety :
    (∀ (order : ℤ) (r : ℝ) (f1 : ℝ → ℝ) (f2 : ℝ → ℝ → ℝ) (f3 : ℝ → ℝ → ℝ → ℝ)
        (xa xb ya yb za zb : ℝ), 1 ≤ order → order ≤ 10 →
        (∃ v1, Integrate1DChecked r f1 xa xb order = Except.ok v1) ∧
        (∃ v2, Integrate2DChecked r f2 xa xb ya yb order = Except.ok v2) ∧
        (∃ v3, Integrate3DChecked r f3 xa xb ya yb za zb order = Except.ok v3)) ∧
    (∀ (order : ℤ) (r : ℝ) (f1 : ℝ → ℝ) (f2 : ℝ → ℝ → ℝ) (f3 : ℝ → ℝ → ℝ → ℝ)
        (xa xb ya yb za zb : ℝ), -2 ^ 31 ≤ order → order < 1 →
        Integrate1DChecked r f1 xa xb order
            = Except.error (if order = 0 then QuadErr.oobIndex else QuadErr.ubConstruct) ∧
        Integrate2DChecked r f2 xa xb ya yb order
            = Except.error (if order = 0 then QuadErr.oobIndex else QuadErr.ubConstruct) ∧
        Integrate3DChecked r f3 xa xb ya yb za zb order
            = Except.error (if order = 0 then QuadErr.oobIndex else QuadErr.ubConstruct)) := by
  constructor
  · intro order r f1 f2 f3 xa xb ya yb za zb h1 h10
    have hsel := selectTables_valid order h1 (by omega)
    have hlen : (glnodes order.toNat).length ≤ (glweights order.toNat).length :=
      (length_glweights order.toNat).ge
    refine ⟨⟨_, Integrate1DChecked_eq r f1 xa xb order h1 (by omega)⟩, ?_, ?_⟩
    · obtain ⟨v, hv⟩ := sumNodes2D_ok f2 ((xb - xa) / 2) ((xb + xa) / 2) ((yb - ya) / 2)
        ((yb + ya) / 2) (glnodes order.toNat) (glweights order.toNat) hlen
        (glnodes order.toNat) (glweights order.toNat) (r * 0) hlen
      refine ⟨v * ((xb - xa) / 2 * ((yb - ya) / 2)), ?_⟩
      simp only [Integrate2DChecked, hsel]
      rw [hv]
    · obtain ⟨v, hv⟩ := sumNodes3D_ok f3 ((xb - xa) / 2) ((xb + xa) / 2) ((yb - ya) / 2)
        ((yb + ya) / 2) ((zb - za) / 2) ((zb + za) / 2) (glnodes order.toNat)
        (glweights order.toNat) hlen (glnodes order.toNat) (glweights order.toNat)
        (r * 0) hlen
      refine ⟨v * ((xb - xa) / 2 * ((yb - ya) / 2 * ((zb - za) / 2))), ?_⟩
      simp only [Integrate3DChecked, hsel]
      rw [hv]
  · intro order r f1 f2 f3 xa xb ya yb za zb hlo h1
    rcases eq_or_lt_of_le (show order ≤ 0 by omega) with h0 | h0
    · subst h0
      refine ⟨?_, ?_, ?_⟩
      · rw [Integrate1DChecked, selectTables_zero, if_pos rfl]
      · rw [Integrate2DChecked, selectTables_zero, if_pos rfl]
      · rw [Integrate3DChecked, selectTables_zero, if_pos rfl]
    · have hsel := selectTables_neg order hlo h0
      have hne : ¬order = 0 := by omega
      refine ⟨?_, ?_, ?_⟩
      · rw [Integrate1DChecked, hsel, if_neg hne]
      · rw [Integrate2DChecked, hsel, if_neg hne]
      · rw [Integrate3DChecked, hsel, if_neg hne]

/-- C8: on every exit path of `UpdateState` — first residual evaluation
failing, time-perturbed evaluation failing, any Jacobian perturbation failing,
or full success — the external body state returned equals the nominal state
imposed at the start of the call; internal perturbations never leak. -/
theorem C8_updateState_restores_nominal {ε : Type} (C : BodyState → Except ε (List ℝ))
    (q0 : List ℝ) (t eps : ℝ) (s0 : BodyState) :
    (UpdateState C q0 t eps s0).2 = ImposeCoords q0 t s0 := by
  simp only [UpdateState, ImposeCoords]
  cases C ⟨q0, t⟩ with
  | error e => rfl
  | ok r0 =>
    cases C ⟨q0, t + eps⟩ with
    | error e => rfl
    | ok rt =>
      rcases hloop : computeCqLoop C q0 t eps r0 (List.range q0.length) ⟨q0, t + eps⟩
        with ⟨res, s3⟩
      cases res with
      | error e => simp [hloop]
      | ok cols => simp [hloop]

/-- The Jacobian loop succeeds whenever every residual evaluation does. -/
theorem computeCqLoop_ok {ε : Type} (C : BodyState → Except ε (List ℝ))
    (hC : ∀ s : BodyState, ∃ v, C s = Except.ok v) (q0 : List ℝ) (t eps : ℝ) (r0 : List ℝ) :
    ∀ (js : List ℕ) (s : BodyState), ∃ cols s',
      computeCqLoop C q0 t eps r0 js s = (Except.ok cols, s') := by
  intro js
  induction js with
  | nil => intro s; exact ⟨[], s, rfl⟩
  | cons j js ih =>
    intro s
    obtain ⟨v, hv⟩ := hC (ImposeCoords (perturbCoord q0 j eps) t s)
    obtain ⟨cols, s', hrec⟩ := ih (ImposeCoords (perturbCoord q0 j eps) t s)
    exact ⟨fdColumn r0 v eps :: cols, s', by rw [computeCqLoop, hv, hrec]⟩

/-- C9: if a subclass does not override `ComputeC`, the default residual is
the zero vector for every imposed state, and `UpdateState` succeeds — the link
behaves as an unconstrained no-op link producing a zero residual rather than
signalling an error. -/
theorem C9_default_computeC_noop (doc : ℕ) (q0 : List ℝ) (t eps : ℝ) (s0 : BodyState) :
    (∀ s : BodyState, defaultComputeC doc s = Except.ok (List.replicate doc 0)) ∧
    ∃ out : NumdiffOut,
      UpdateState (defaultComputeC doc) q0 t eps s0 = (Except.ok out, ImposeCoords q0 t s0) ∧
      out.resid = List.replicate doc 0 := by
  refine ⟨fun s => rfl, ?_⟩
  obtain ⟨cols, s', hloop⟩ := computeCqLoop_ok (defaultComputeC doc)
    (fun s => ⟨List.replicate doc 0, rfl⟩) q0 t eps (List.replicate doc 0)
    (List.range q0.length) ⟨q0, t + eps⟩
  refine ⟨⟨List.replicate doc 0,
    fdColumn (List.replicate doc 0) (List.replicate doc 0) eps, cols⟩, ?_, rfl⟩
  have hC : ∀ s : BodyState, defaultComputeC doc s = Except.ok (List.replicate doc 0) :=
    fun s => rfl
  simp only [UpdateState, ImposeCoords, hC, hloop]

/-! ### The Legendre polynomial in Rodrigues form: degree and boundary -/

theorem monic_sq_sub_one : (X ^ 2 - 1 : Polynomial ℝ).Monic := by
  have h := monic_X_pow_sub_C (1 : ℝ) (two_ne_zero)
  simpa using h

theorem monic_legBase (n : ℕ) : (legBase n).Monic := monic_sq_sub_one.pow n

theorem natDegree_legBase (n : ℕ) : (legBase n).natDegree = 2 * n := by
  have h2 : (X ^ 2 - 1 : Polynomial ℝ).natDegree = 2 := by
    rw [show (X ^ 2 - 1 : Polynomial ℝ) = X ^ 2 - C 1 by rw [C_1]]
    exact natDegree_X_pow_sub_C
  rw [legBase, monic_sq_sub_one.natDegree_pow, h2, Nat.mul_comm]

theorem coeff_legendreP (n : ℕ) :
    (legendreP n).coeff n = ((2 * n).descFactorial n : ℝ) := by
  rw [legendreP, Polynomial.coeff_iterate_derivative]
  have h1 : (legBase n).coeff (n + n) = 1 := by
    rw [show n + n = 2 * n from (two_mul n).symm, ← natDegree_legBase n]
    exact (monic_legBase n).coeff_natDegree
  rw [h1, show n + n = 2 * n from (two_mul n).symm]
  simp

theorem coeff_legendreP_ne_zero (n : ℕ) : (legendreP n).coeff n ≠ 0 := by
  rw [coeff_legendreP]
  have h : (2 * n).descFactorial n ≠ 0 := by
    rw [Ne, Nat.descFactorial_eq_zero_iff_lt]
    omega
  exact_mod_cast h

theorem natDegree_legendreP (n : ℕ) : (legendreP n).natDegree = n := by
  apply le_antisymm
  · have h := natDegree_iterate_derivative (legBase n) n
    rw [natDegree_legBase] at h
    rw [legendreP]
    omega
  · exact le_natDegree_of_ne_zero (coeff_legendreP_ne_zero n)

theorem legendreP_ne_zero (n : ℕ) : legendreP n ≠ 0 := fun h => by
  have := coeff_legendreP_ne_zero n
  rw [h] at this
  simp at this

/-- Iterated derivatives of `(x^2-1)^n` keep a factor `(x^2-1)^(n-k)`. -/
theorem sq_sub_one_pow_dvd_iterate (n : ℕ) :
    ∀ k, k ≤ n → ((X : Polynomial ℝ) ^ 2 - 1) ^ (n - k) ∣ derivative^[k] (legBase n) := by
  intro k
  induction k with
  | zero => intro _; rw [Nat.sub_zero, Function.iterate_zero_apply]; exact dvd_of_eq rfl
  | succ k ih =>
    intro hk
    obtain ⟨g, hg⟩ := ih (by omega)
    rw [Function.iterate_succ_apply', hg, derivative_mul, derivative_pow]
    have he : n - k - 1 = n - (k + 1) := by omega
    have hsplit : n - k = n - (k + 1) + 1 := by omega
    rw [he, hsplit]
    apply dvd_add
    · exact ⟨C ((n - (k + 1) + 1 : ℕ) : ℝ) * derivative (X ^ 2 - 1) * g, by ring⟩
    · exact ⟨(X ^ 2 - 1) * derivative g, by rw [pow_succ]; ring⟩

/-- For `k < n`, the `k`-th derivative of `(x^2-1)^n` vanishes at both
endpoints of the canonical interval. -/
theorem iterate_derivative_legBase_boundary (n k : ℕ) (hk : k < n) :
    (derivative^[k] (legBase n)).eval 1 = 0 ∧ (derivative^[k] (legBase n)).eval (-1) = 0 := by
  obtain ⟨g, hg⟩ := sq_sub_one_pow_dvd_iterate n k (le_of_lt hk)
  have hnk : n - k ≠ 0 := by omega
  constructor <;> rw [hg] <;> simp [zero_pow hnk]

/-! ### Parity of the Legendre polynomial -/

theorem legBase_comp_neg (n : ℕ) : (legBase n).comp (-X) = legBase n := by
  rw [legBase, pow_comp, sub_comp, pow_comp, X_comp, one_comp, neg_pow]
  norm_num

theorem iterate_derivative_comp_neg (k : ℕ) :
    ∀ p : Polynomial ℝ,
      derivative^[k] (p.comp (-X)) = (-1 : ℝ) ^ k • (derivative^[k] p).comp (-X) := by
  induction k with
  | zero => intro p; simp
  | succ k ih =>
    intro p
    rw [Function.iterate_succ_apply, Function.iterate_succ_apply']
    have hstep : derivative (p.comp (-X)) = -(derivative p).comp (-X) := by
      rw [derivative_comp]
      simp
    rw [hstep, iterate_derivative_neg, ih (derivative p)]
    rw [← Function.iterate_succ_apply]
    rw [show derivative (derivative^[k] p) = derivative^[k + 1] p from
      (Function.iterate_succ_apply' _ k p).symm]
    rw [pow_succ, mul_comm ((-1 : ℝ) ^ k) (-1 : ℝ), ← smul_smul, neg_one_smul]

theorem legendreP_eval_neg (n : ℕ) (x : ℝ) :
    (legendreP n).eval (-x) = (-1 : ℝ) ^ n * (legendreP n).eval x := by
  have h := iterate_derivative_comp_neg n (legBase n)
  rw [legBase_comp_neg] at h
  have h2 := congrArg (eval x) h
  rw [eval_smul, eval_comp] at h2
  simp only [eval_neg, eval_X, smul_eq_mul] at h2
  have hres : (legendreP n).eval x = (-1 : ℝ) ^ n * (legendreP n).eval (-x) := h2
  have hpow : (-1 : ℝ) ^ n * (-1 : ℝ) ^ n = 1 := by
    rw [← mul_pow]
    norm_num
  calc (legendreP n).eval (-x)
      = ((-1 : ℝ) ^ n * (-1 : ℝ) ^ n) * (legendreP n).eval (-x) := by rw [hpow, one_mul]
    _ = (-1 : ℝ) ^ n * (legendreP n).eval x := by rw [mul_assoc, ← hres]

/-! ### Orthogonality of the Legendre polynomial via integration by parts -/

theorem poly_intervalIntegrable (p : Polynomial ℝ) (a b : ℝ) :
    IntervalIntegrable (fun x => p.eval x) volume a b :=
  p.continuous.intervalIntegrable a b

theorem poly_mul_intervalIntegrable (p q : Polynomial ℝ) (a b : ℝ) :
    IntervalIntegrable (fun x => p.eval x * q.eval x) volume a b :=
  (p.continuous.mul q.continuous).intervalIntegrable a b

/-- One integration-by-parts step with vanishing boundary terms. -/
theorem ibp_step (u v : Polynomial ℝ) (hu1 : u.eval 1 = 0) (hu2 : u.eval (-1) = 0) :
    (∫ x in (-1 : ℝ)..1, (derivative u).eval x * v.eval x)
      = -∫ x in (-1 : ℝ)..1, u.eval x * (derivative v).eval x := by
  have key :
      (∫ x in (-1 : ℝ)..1,
          (derivative u).eval x * v.eval x + u.eval x * (derivative v).eval x)
        = u.eval 1 * v.eval 1 - u.eval (-1) * v.eval (-1) :=
    integral_deriv_mul_eq_sub (fun x _ => u.hasDerivAt x) (fun x _ => v.hasDerivAt x)
      (poly_intervalIntegrable (derivative u) (-1) 1)
      (poly_intervalIntegrable (derivative v) (-1) 1)
  rw [integral_add (poly_mul_intervalIntegrable (derivative u) v (-1) 1)
    (poly_mul_intervalIntegrable u (derivative v) (-1) 1), hu1, hu2] at key
  simp only [zero_mul, sub_zero] at key
  linarith

theorem iter_ibp (n : ℕ) (q : Polynomial ℝ) :
    ∀ k, k ≤ n →
      (∫ x in (-1 : ℝ)..1, (legendreP n).eval x * q.eval x)
        = (-1 : ℝ) ^ k *
            ∫ x in (-1 : ℝ)..1,
              (derivative^[n - k] (legBase n)).eval x * (derivative^[k] q).eval x := by
  intro k
  induction k with
  | zero => intro _; simp [legendreP]
  | succ k ih =>
    intro hk
    rw [ih (by omega)]
    have hb := iterate_derivative_legBase_boundary n (n - (k + 1)) (by omega)
    have hstep := ibp_step (derivative^[n - (k + 1)] (legBase n)) (derivative^[k] q) hb.1 hb.2
    have hs : derivative (derivative^[n - (k + 1)] (legBase n))
        = derivative^[n - k] (legBase n) := by
      rw [show n - k = n - (k + 1) + 1 by omega, Function.iterate_succ_apply']
    rw [hs] at hstep
    rw [hstep]
    rw [show derivative (derivative^[k] q) = derivative^[k + 1] q from
      (Function.iterate_succ_apply' _ k q).symm]
    ring

/-- Orthogonality: the degree-`n` Legendre polynomial is orthogonal on
`[-1, 1]` to every polynomial of degree less than `n`. -/
theorem legendreP_orth (n : ℕ) (q : Polynomial ℝ) (hq : q.degree < n) :
    ∫ x in (-1 : ℝ)..1, (legendreP n).eval x * q.eval x = 0 := by
  have h0 : derivative^[n] q = 0 := by
    rcases eq_or_ne q 0 with rfl | hne
    · simp
    · exact iterate_derivative_eq_zero ((natDegree_lt_iff_degree_lt hne).mpr hq)
  rw [iter_ibp n q n le_rfl, Nat.sub_self, h0]
  simp

/-! ### Location of the roots: Rolle interlacing -/

theorem chain_head_lt {y b : ℝ} (hyb : y < b) :
    ∀ {m : List ℝ}, List.Chain (· < ·) b m → List.Chain (· < ·) y m := by
  intro m hm
  cases hm with
  | nil => exact List.Chain.nil
  | cons hz hzs => exact List.Chain.cons (lt_trans hyb hz) hzs

theorem chain_append_one (c : ℝ) :
    ∀ (m : List ℝ) (a : ℝ), List.Chain (· < ·) a m → (∀ y ∈ m, y < c) → a < c →
      List.Chain (· < ·) a (m ++ [c]) := by
  intro m
  induction m with
  | nil => intro a _ _ hac; exact List.Chain.cons hac List.Chain.nil
  | cons b t ih =>
    intro a hch hlt hac
    cases hch with
    | cons hab hbt =>
      exact List.Chain.cons hab (ih b hbt (fun y hy => hlt y (List.mem_cons_of_mem b hy))
        (hlt b (List.mem_cons_self b t)))

theorem chain_forall_gt :
    ∀ (m : List ℝ) (a : ℝ), List.Chain (· < ·) a m → ∀ y ∈ m, a < y := by
  intro m
  induction m with
  | nil => intro a _ y hy; exact absurd hy (List.not_mem_nil y)
  | cons b t ih =>
    intro a hch y hy
    cases hch with
    | cons hab hbt =>
      rcases List.mem_cons.mp hy with rfl | hyt
      · exact hab
      · exact lt_trans hab (ih b hbt y hyt)

/-- Rolle's theorem for polynomials. -/
theorem poly_rolle (p : Polynomial ℝ) {a b : ℝ} (hab : a < b) (ha : p.eval a = 0)
    (hb : p.eval b = 0) : ∃ c, a < c ∧ c < b ∧ (derivative p).eval c = 0 := by
  obtain ⟨c, hc, hc0⟩ := exists_deriv_eq_zero hab p.continuous.continuousOn
    (ha.trans hb.symm)
  refine ⟨c, hc.1, hc.2, ?_⟩
  rw [← Polynomial.deriv]
  exact hc0

/-- Between consecutive roots of `p` along a strict chain there is a root of
the derivative; the produced roots interlace the chain. -/
theorem rolle_list (p : Polynomial ℝ) (c : ℝ) :
    ∀ (l : List ℝ) (a : ℝ), List.Chain (· < ·) a l →
      (∀ x ∈ a :: l, p.eval x = 0) → (∀ x ∈ l, x ≤ c) →
      ∃ m : List ℝ, m.length = l.length ∧ List.Chain (· < ·) a m ∧
        ∀ y ∈ m, (derivative p).eval y = 0 ∧ y < c := by
  intro l
  induction l with
  | nil =>
    intro a _ _ _
    exact ⟨[], rfl, List.Chain.nil, fun y hy => absurd hy (List.not_mem_nil y)⟩
  | cons b t ih =>
    intro a hch hroots hbd
    cases hch with
    | cons hab hbt =>
      obtain ⟨y, hay, hyb, hy0⟩ := poly_rolle p hab (hroots a (List.mem_cons_self _ _))
        (hroots b (List.mem_cons_of_mem a (List.mem_cons_self _ _)))
      obtain ⟨m', hlen, hch', hprop⟩ := ih b hbt
        (fun x hx => hroots x (List.mem_cons_of_mem a hx))
        (fun x hx => hbd x (List.mem_cons_of_mem b hx))
      refine ⟨y :: m', by simp [hlen], List.Chain.cons hay (chain_head_lt hyb hch'), ?_⟩
      intro z hz
      rcases List.mem_cons.mp hz with rfl | hzm
      · exact ⟨hy0, lt_of_lt_of_le hyb (hbd b (List.mem_cons_self _ _))⟩
      · exact hprop z hzm

/-- The `k`-th derivative of `(x^2-1)^n` has (at least) `k` interior roots in
strictly increasing position inside `(-1, 1)`, for every `k ≤ n`. -/
theorem iter_roots_chain (n : ℕ) :
    ∀ k, k ≤ n →
      ∃ l : List ℝ, l.length = k ∧ List.Chain (· < ·) (-1) l ∧
        ∀ x ∈ l, (derivative^[k] (legBase n)).eval x = 0 ∧ x < 1 := by
  intro k
  induction k with
  | zero =>
    intro _
    exact ⟨[], rfl, List.Chain.nil, fun x hx => absurd hx (List.not_mem_nil x)⟩
  | succ k ih =>
    intro hk
    obtain ⟨l, hlen, hch, hprop⟩ := ih (by omega)
    have hb := iterate_derivative_legBase_boundary n k (by omega)
    have hch2 : List.Chain (· < ·) (-1) (l ++ [1]) :=
      chain_append_one 1 l (-1) hch (fun y hy => (hprop y hy).2) (by norm_num)
    have hroots2 : ∀ x ∈ (-1 : ℝ) :: (l ++ [1]), (derivative^[k] (legBase n)).eval x = 0 := by
      intro x hx
      rcases List.mem_cons.mp hx with rfl | hx2
      · exact hb.2
      · rcases List.mem_append.mp hx2 with hxl | hx1
        · exact (hprop x hxl).1
        · rw [List.mem_singleton.mp hx1]
          exact hb.1
    have hbd2 : ∀ x ∈ l ++ [1], x ≤ (1 : ℝ) := by
      intro x hx
      rcases List.mem_append.mp hx with hxl | hx1
      · exact le_of_lt (hprop x hxl).2
      · exact le_of_eq (List.mem_singleton.mp hx1)
    obtain ⟨m, hmlen, hmch, hmprop⟩ := rolle_list (derivative^[k] (legBase n)) 1
      (l ++ [1]) (-1) hch2 hroots2 hbd2
    refine ⟨m, ?_, hmch, ?_⟩
    · rw [hmlen]
      simp [hlen]
    · intro y hy
      refine ⟨?_, (hmprop y hy).2⟩
      have h1 := (hmprop y hy).1
      rw [show derivative (derivative^[k] (legBase n)) = derivative^[k + 1] (legBase n) from
        (Function.iterate_succ_apply' _ _ _).symm] at h1
      exact h1

/-- The Gauss-Legendre node set of order `n` has exactly `n` nodes, all lying
strictly inside `(-1, 1)`. -/
theorem glroots_spec (n : ℕ) :
    (glroots n).card = n ∧ ∀ x ∈ glroots n, -1 < x ∧ x < 1 := by
  obtain ⟨l, hlen, hch, hprop⟩ := iter_roots_chain n n le_rfl
  have hpair : l.Pairwise (· < ·) := (List.chain_iff_pairwise.mp hch).of_cons
  have hnodup : l.Nodup := hpair.imp ne_of_lt
  have hsub : l.toFinset ⊆ glroots n := by
    intro x hx
    rw [List.mem_toFinset] at hx
    rw [glroots, Multiset.mem_toFinset, mem_roots (legendreP_ne_zero n)]
    show eval x (legendreP n) = 0
    rw [legendreP]
    exact (hprop x hx).1
  have hcard1 : l.toFinset.card = n := by rw [List.toFinset_card_of_nodup hnodup, hlen]
  have hcard2 : (glroots n).card ≤ n := by
    calc (glroots n).card ≤ Multiset.card (legendreP n).roots := Multiset.toFinset_card_le _
      _ ≤ (legendreP n).natDegree := (legendreP n).card_roots'
      _ = n := natDegree_legendreP n
  have heq : glroots n = l.toFinset :=
    (Finset.eq_of_subset_of_card_le hsub (by omega)).symm
  constructor
  · rw [heq, hcard1]
  · intro x hx
    rw [heq, List.mem_toFinset] at hx
    exact ⟨chain_forall_gt l (-1) hch x hx, (hprop x hx).2⟩

/-! ### Exactness of the quadrature sum -/

/-- The quadrature sum integrates exactly every polynomial of degree below the
node count (interpolatory exactness). -/
theorem quadSum_interp (n : ℕ) (p : Polynomial ℝ) (hp : p.degree < (glroots n).card) :
    quadSum n (fun x => p.eval x) = ∫ x in (-1 : ℝ)..1, p.eval x := by
  have hinj : Set.InjOn id ((glroots n : Finset ℝ) : Set ℝ) := Set.injOn_id _
  have hrep := Lagrange.eq_interpolate hinj hp
  conv_rhs => rw [hrep]
  rw [Lagrange.interpolate_apply]
  rw [show (fun x =>
        (∑ i ∈ glroots n, C (p.eval (id i)) * Lagrange.basis (glroots n) id i).eval x)
      = fun x => ∑ i ∈ glroots n, (C (p.eval (id i)) * Lagrange.basis (glroots n) id i).eval x
      from funext fun x => by rw [eval_finset_sum]]
  rw [intervalIntegral.integral_finset_sum fun i _ => poly_intervalIntegrable _ _ _]
  have hterm : ∀ i ∈ glroots n,
      (∫ x in (-1 : ℝ)..1, (C (p.eval (id i)) * Lagrange.basis (glroots n) id i).eval x)
        = glweight n i * p.eval i := by
    intro i _
    rw [show (fun x => (C (p.eval (id i)) * Lagrange.basis (glroots n) id i).eval x)
        = fun x => p.eval i * (Lagrange.basis (glroots n) id i).eval x from
        funext fun x => by rw [eval_mul, eval_C, id]]
    rw [intervalIntegral.integral_const_mul, glweight]
    ring
  rw [Finset.sum_congr rfl hterm, quadSum]

/-- Gauss exactness: the order-`n` quadrature sum integrates exactly every
polynomial of degree `< 2n` over `[-1, 1]`. -/
theorem quadSum_exact (n : ℕ) (hn : 1 ≤ n) (p : Polynomial ℝ) (hp : p.degree < 2 * n) :
    quadSum n (fun x => p.eval x) = ∫ x in (-1 : ℝ)..1, p.eval x := by
  have hcard : (glroots n).card = n := (glroots_spec n).1
  have hM : (legendreP n * C (legendreP n).leadingCoeff⁻¹).Monic :=
    monic_mul_leadingCoeff_inv (legendreP_ne_zero n)
  set M := legendreP n * C (legendreP n).leadingCoeff⁻¹ with hMdef
  have hdegL : (legendreP n).degree = (n : ℕ) := by
    rw [degree_eq_natDegree (legendreP_ne_zero n), natDegree_legendreP]
  have hMdeg : M.degree = (n : ℕ) := by
    rw [hMdef, degree_mul_leadingCoeff_inv _ (legendreP_ne_zero n), hdegL]
  have hMnat : M.natDegree = n := natDegree_eq_of_degree_eq_some hMdeg
  set r := p %ₘ M with hrdef
  set q := p /ₘ M with hqdef
  have hpqr : r + M * q = p := modByMonic_add_div p hM
  have hdr : r.degree < (n : ℕ) := by
    have h := degree_modByMonic_lt p hM
    rwa [hMdeg] at h
  have hdq : q.degree < (n : ℕ) := by
    rcases eq_or_ne q 0 with hq0 | hq0
    · rw [hq0, degree_zero]
      exact WithBot.bot_lt_coe n
    · have hpne : p ≠ 0 := by
        intro h0
        apply hq0
        rw [hqdef, h0, zero_divByMonic]
      have hqnat : q.natDegree = p.natDegree - n := by
        rw [hqdef, natDegree_divByMonic p hM, hMnat]
      have hpnat : p.natDegree < 2 * n := (natDegree_lt_iff_degree_lt hpne).mpr hp
      rw [degree_eq_natDegree hq0, hqnat]
      exact_mod_cast by omega
  have hstep1 : quadSum n (fun x => p.eval x) = quadSum n (fun x => r.eval x) := by
    rw [quadSum, quadSum]
    refine Finset.sum_congr rfl fun x hx => ?_
    have hroot : (legendreP n).eval x = 0 := by
      rw [glroots, Multiset.mem_toFinset, mem_roots (legendreP_ne_zero n)] at hx
      exact hx
    have hMx : M.eval x = 0 := by rw [hMdef, eval_mul, hroot, zero_mul]
    have hpr : p.eval x = r.eval x := by
      conv_lhs => rw [← hpqr]
      rw [eval_add, eval_mul, hMx, zero_mul, add_zero]
    rw [hpr]
  have hstep2 : quadSum n (fun x => r.eval x) = ∫ x in (-1 : ℝ)..1, r.eval x :=
    quadSum_interp n r (by rw [hcard]; exact hdr)
  have horth : (∫ x in (-1 : ℝ)..1, (M * q).eval x) = 0 := by
    have hCq : (C (legendreP n).leadingCoeff⁻¹ * q).degree ≤ q.degree := by
      calc (C (legendreP n).leadingCoeff⁻¹ * q).degree
          ≤ (C (legendreP n).leadingCoeff⁻¹).degree + q.degree := degree_mul_le _ _
        _ ≤ 0 + q.degree := add_le_add_right degree_C_le _
        _ = q.degree := zero_add _
    have hq2 : (C (legendreP n).leadingCoeff⁻¹ * q).degree < (n : ℕ) :=
      lt_of_le_of_lt hCq hdq
    have h := legendreP_orth n (C (legendreP n).leadingCoeff⁻¹ * q) hq2
    rw [show (fun x => (M * q).eval x)
        = fun x => (legendreP n).eval x * (C (legendreP n).leadingCoeff⁻¹ * q).eval x from
        funext fun x => by rw [hMdef]; simp only [eval_mul]; ring]
    exact h
  have hsplit : (∫ x in (-1 : ℝ)..1, p.eval x)
      = (∫ x in (-1 : ℝ)..1, r.eval x) + ∫ x in (-1 : ℝ)..1, (M * q).eval x := by
    rw [← integral_add (poly_intervalIntegrable r (-1) 1)
      (poly_intervalIntegrable (M * q) (-1) 1)]
    congr 1
    funext x
    conv_lhs => rw [← hpqr]
    rw [eval_add]
  rw [hstep1, hstep2, hsplit, horth, add_zero]

/-! ### Positivity and normalization of the weights -/

theorem integral_sq_pos (p : Polynomial ℝ) (hp : p ≠ 0) :
    0 < ∫ x in (-1 : ℝ)..1, p.eval x ^ 2 := by
  have hIcc : (Set.Icc (-1 : ℝ) 1).Infinite := Set.Icc_infinite (by norm_num)
  obtain ⟨c, hc⟩ := (hIcc.diff (finite_setOf_isRoot hp)).nonempty
  apply intervalIntegral.integral_pos (by norm_num)
  · exact (p.continuous.pow 2).continuousOn
  · intro x _
    exact sq_nonneg _
  · refine ⟨c, hc.1, ?_⟩
    have hne : p.eval c ≠ 0 := hc.2
    exact (sq_nonneg (p.eval c)).lt_of_ne fun h =>
      hne ((pow_eq_zero_iff two_ne_zero).mp h.symm)

theorem glweight_pos (n : ℕ) (hn : 1 ≤ n) {x : ℝ} (hx : x ∈ glroots n) :
    0 < glweight n x := by
  have hcard : (glroots n).card = n := (glroots_spec n).1
  have hinj : Set.InjOn id ((glroots n : Finset ℝ) : Set ℝ) := Set.injOn_id _
  set B := Lagrange.basis (glroots n) id x with hBdef
  have hBne : B ≠ 0 := Lagrange.basis_ne_zero hinj hx
  have hdeg : (B ^ 2).degree < 2 * n := by
    have hBnat : B.natDegree = n - 1 := by
      rw [hBdef, Lagrange.natDegree_basis hinj hx, hcard]
    rw [degree_eq_natDegree (pow_ne_zero 2 hBne), natDegree_pow, hBnat]
    have harith : 2 * (n - 1) < 2 * n := by omega
    exact_mod_cast harith
  have hq := quadSum_exact n hn (B ^ 2) hdeg
  have hsum : quadSum n (fun t => (B ^ 2).eval t) = glweight n x := by
    rw [quadSum]
    rw [Finset.sum_eq_single_of_mem x hx]
    · rw [eval_pow]
      have h1 : B.eval x = 1 := by
        have h := Lagrange.eval_basis_self hinj hx
        simpa using h
      rw [h1]
      norm_num
    · intro y hy hyx
      have h0 : B.eval y = 0 := by
        have h := Lagrange.eval_basis_of_ne (v := id) hyx.symm hy
        simpa using h
      rw [eval_pow, h0]
      norm_num
  have hpos : 0 < ∫ t in (-1 : ℝ)..1, (B ^ 2).eval t := by
    have h := integral_sq_pos B hBne
    rw [show (fun t => (B ^ 2).eval t) = fun t => B.eval t ^ 2 from
      funext fun t => by rw [eval_pow]]
    exact h
  rw [← hsum, hq]
  exact hpos

theorem glweight_total (n : ℕ) (hn : 1 ≤ n) : ∑ x ∈ glroots n, glweight n x = 2 := by
  have hdeg : (1 : Polynomial ℝ).degree < 2 * n := by
    rw [degree_one]
    exact_mod_cast Nat.pos_of_ne_zero (by omega)
  have h := quadSum_exact n hn 1 hdeg
  rw [quadSum] at h
  simp only [eval_one, mul_one] at h
  rw [h, intervalIntegral.integral_const]
  norm_num

theorem glroots_neg_mem (n : ℕ) {x : ℝ} (hx : x ∈ glroots n) : -x ∈ glroots n := by
  rw [glroots, Multiset.mem_toFinset, mem_roots (legendreP_ne_zero n)] at hx ⊢
  have hx2 : eval x (legendreP n) = 0 := hx
  show eval (-x) (legendreP n) = 0
  rw [legendreP_eval_neg, hx2, mul_zero]

/-! ### Symmetry of nodes and weights -/

theorem basis_comp_neg (n : ℕ) {x : ℝ} (hx : x ∈ glroots n) :
    (Lagrange.basis (glroots n) id x).comp (-X) = Lagrange.basis (glroots n) id (-x) := by
  have hinj : Set.InjOn id ((glroots n : Finset ℝ) : Set ℝ) := Set.injOn_id _
  have hnx : -x ∈ glroots n := glroots_neg_mem n hx
  have hcard_pos : 0 < (glroots n).card := Finset.card_pos.mpr ⟨x, hx⟩
  apply Polynomial.eq_of_degrees_lt_of_eval_finset_eq (glroots n)
  · have hdle : ((Lagrange.basis (glroots n) id x).comp (-X)).natDegree
        ≤ (glroots n).card - 1 := by
      rw [natDegree_comp]
      have hb : (Lagrange.basis (glroots n) id x).natDegree = (glroots n).card - 1 :=
        Lagrange.natDegree_basis hinj hx
      have hXd : (-X : Polynomial ℝ).natDegree = 1 := by simp
      rw [hb, hXd, mul_one]
    calc ((Lagrange.basis (glroots n) id x).comp (-X)).degree
        ≤ (((Lagrange.basis (glroots n) id x).comp (-X)).natDegree : WithBot ℕ) :=
          degree_le_natDegree
      _ ≤ (((glroots n).card - 1 : ℕ) : WithBot ℕ) := by exact_mod_cast hdle
      _ < ((glroots n).card : WithBot ℕ) := by
          exact_mod_cast Nat.sub_lt hcard_pos one_pos
  · rw [Lagrange.degree_basis hinj hnx]
    exact_mod_cast Nat.sub_lt hcard_pos one_pos
  · intro y hy
    rw [eval_comp]
    simp only [eval_neg, eval_X]
    by_cases hcase : y = -x
    · subst hcase
      rw [neg_neg]
      have h1 := Lagrange.eval_basis_self hinj hx
      have h2 := Lagrange.eval_basis_self hinj hnx
      simpa using h1.trans h2.symm
    · have hxny : x ≠ -y := fun h => hcase (by rw [h, neg_neg])
      have hnxy : -x ≠ y := fun h => hcase h.symm
      have hny : -y ∈ glroots n := glroots_neg_mem n hy
      have hL := Lagrange.eval_basis_of_ne (v := id) hxny hny
      have hR := Lagrange.eval_basis_of_ne (v := id) hnxy hy
      simpa using hL.trans hR.symm

theorem glweight_neg (n : ℕ) {x : ℝ} (hx : x ∈ glroots n) :
    glweight n (-x) = glweight n x := by
  rw [glweight, glweight, ← basis_comp_neg n hx]
  rw [show (fun t => ((Lagrange.basis (glroots n) id x).comp (-X)).eval t)
      = fun t => (Lagrange.basis (glroots n) id x).eval (-t) from
      funext fun t => by rw [eval_comp]; simp]
  rw [intervalIntegral.integral_comp_neg fun u => (Lagrange.basis (glroots n) id x).eval u]
  norm_num

theorem glroots_image_neg (n : ℕ) : (glroots n).image (fun x => -x) = glroots n := by
  apply Finset.Subset.antisymm
  · intro y hy
    rw [Finset.mem_image] at hy
    obtain ⟨x, hx, rfl⟩ := hy
    exact glroots_neg_mem n hx
  · intro x hx
    rw [Finset.mem_image]
    exact ⟨-x, glroots_neg_mem n hx, neg_neg x⟩

/-- The quadrature sum is invariant under reflecting the integrand. -/
theorem quadSum_neg (n : ℕ) (g : ℝ → ℝ) :
    quadSum n (fun x => g (-x)) = quadSum n g := by
  rw [quadSum, quadSum]
  conv_rhs => rw [← glroots_image_neg n]
  rw [Finset.sum_image fun a _ b _ h => neg_injective h]
  exact Finset.sum_congr rfl fun x hx => by rw [glweight_neg n hx]

theorem glnodes_sorted (n : ℕ) : List.Sorted (· < ·) (glnodes n) :=
  Finset.sort_sorted_lt _

theorem glroots_map_neg_val (n : ℕ) :
    Multiset.map (fun x => -x) (glroots n).val = (glroots n).val := by
  have hmap : (glroots n).map ⟨fun x => -x, neg_injective⟩ = glroots n := by
    ext y
    rw [Finset.mem_map]
    constructor
    · rintro ⟨x, hx, rfl⟩
      exact glroots_neg_mem n hx
    · intro hy
      exact ⟨-y, glroots_neg_mem n hy, neg_neg y⟩
  have h := congrArg Finset.val hmap
  rwa [Finset.map_val] at h

/-- Reflecting the (ascending) node list reverses it: the nodes are placed
symmetrically about 0. -/
theorem glnodes_map_neg (n : ℕ) :
    (glnodes n).map (fun x => -x) = (glnodes n).reverse := by
  haveI : IsAntisymm ℝ (· > ·) := ⟨fun a b h1 h2 => absurd h1 (lt_asymm h2)⟩
  apply List.eq_of_perm_of_sorted (r := (· > ·))
  · apply Multiset.coe_eq_coe.mp
    have h1 : ((glnodes n).map (fun x => -x) : Multiset ℝ)
        = Multiset.map (fun x => -x) ((glnodes n : List ℝ) : Multiset ℝ) := by
      simp
    rw [h1, coe_glnodes, glroots_map_neg_val, ← coe_glnodes]
    exact (Multiset.coe_eq_coe.mpr (glnodes n).reverse_perm.symm)
  · rw [List.Sorted, List.pairwise_map]
    have h := glnodes_sorted n
    rw [List.Sorted] at h
    exact h.imp fun hab => neg_lt_neg hab
  · rw [List.Sorted, List.pairwise_reverse]
    exact glnodes_sorted n

theorem glweights_reverse (n : ℕ) : (glweights n).reverse = glweights n := by
  rw [glweights, ← List.map_reverse, ← glnodes_map_neg, List.map_map]
  apply List.map_congr_left
  intro x hx
  have hmem : x ∈ glroots n := by rwa [glnodes, Finset.mem_sort] at hx
  show glweight n (-x) = glweight n x
  exact glweight_neg n hmem

/-! ### C1: exactness on polynomials, C4: reversed bounds -/

/-- C1: for every order `n` in 1..10, every interval `[a, b]`, and every
polynomial integrand of degree at most `2n - 1`, `Integrate1D` with order `n`
returns the exact closed-form integral over `[a, b]` (embedded over ℝ). -/
theorem C1_polynomial_exactness (n : ℕ) (hn : 1 ≤ n ∧ n ≤ 10) (p : Polynomial ℝ)
    (hp : p.degree ≤ (2 * n - 1 : ℕ)) (r a b : ℝ) :
    Integrate1D r (fun x => p.eval x) a b n = ∫ x in a..b, p.eval x := by
  rw [Integrate1D_eq_quadSum r _ a b n hn.1]
  have hplt : p.degree < 2 * n := by
    refine lt_of_le_of_lt hp ?_
    exact_mod_cast show 2 * n - 1 < 2 * n by omega
  have hcomp : (fun x : ℝ => p.eval ((b - a) / 2 * x + (b + a) / 2))
      = fun x => (p.comp (C ((b - a) / 2) * X + C ((b + a) / 2))).eval x := by
    funext t
    rw [eval_comp]
    simp
  have hdcomp : (p.comp (C ((b - a) / 2) * X + C ((b + a) / 2))).degree < 2 * n := by
    rcases eq_or_ne (p.comp (C ((b - a) / 2) * X + C ((b + a) / 2))) 0 with h0 | h0
    · rw [h0, degree_zero]
      exact_mod_cast WithBot.bot_lt_coe (2 * n)
    · have hpne : p ≠ 0 := fun hz => h0 (by rw [hz, zero_comp])
      have hlin : (C ((b - a) / 2) * X + C ((b + a) / 2)).natDegree ≤ 1 := natDegree_linear_le
      have hle : (p.comp (C ((b - a) / 2) * X + C ((b + a) / 2))).natDegree
          ≤ p.natDegree := by
        calc (p.comp (C ((b - a) / 2) * X + C ((b + a) / 2))).natDegree
            ≤ p.natDegree * (C ((b - a) / 2) * X + C ((b + a) / 2)).natDegree :=
              natDegree_comp_le
          _ ≤ p.natDegree * 1 := Nat.mul_le_mul_left _ hlin
          _ = p.natDegree := mul_one _
      have hpn : p.natDegree < 2 * n := (natDegree_lt_iff_degree_lt hpne).mpr hplt
      rw [degree_eq_natDegree h0]
      exact_mod_cast lt_of_le_of_lt hle hpn
  rw [hcomp, quadSum_exact n hn.1 _ hdcomp]
  rw [show (fun t : ℝ => (p.comp (C ((b - a) / 2) * X + C ((b + a) / 2))).eval t)
      = fun t => p.eval ((b - a) / 2 * t + (b + a) / 2) from
      funext fun t => by rw [eval_comp]; simp]
  rw [mul_comm, ← smul_eq_mul]
  rw [intervalIntegral.smul_integral_comp_mul_add (fun u => p.eval u)
    ((b - a) / 2) ((b + a) / 2)]
  rw [show (b - a) / 2 * -1 + (b + a) / 2 = a by ring,
    show (b - a) / 2 * 1 + (b + a) / 2 = b by ring]

/-- Witness for C1: order 1, integrand `X`, interval `[0, 1]`. -/
theorem C1_polynomial_exactness_witness :
    Integrate1D 0 (fun x => (X : Polynomial ℝ).eval x) 0 1 1
      = ∫ x in (0 : ℝ)..1, (X : Polynomial ℝ).eval x :=
  C1_polynomial_exactness 1 ⟨le_rfl, by norm_num⟩ X (by simpa using degree_X_le) 0 0 1

/-- C4: for every integrand, bounds and order in the static range, reversing
the bounds negates the 1D result. -/
theorem C4_reversed_bounds (f : ℝ → ℝ) (r a b : ℝ) (order : ℕ)
    (h : 1 ≤ order ∧ order ≤ 10) :
    Integrate1D r f b a order = -Integrate1D r f a b order := by
  rw [Integrate1D_eq_quadSum r f b a order h.1, Integrate1D_eq_quadSum r f a b order h.1]
  have href : (fun x : ℝ => f ((a - b) / 2 * x + (a + b) / 2))
      = fun x => f ((b - a) / 2 * -x + (b + a) / 2) := by
    funext x
    congr 1
    ring
  rw [href]
  rw [quadSum_neg order fun y => f ((b - a) / 2 * y + (b + a) / 2)]
  ring

/-- Witness for C4: order 3, integrand `x ↦ x^2`, bounds `0, 1`. -/
theorem C4_reversed_bounds_witness :
    Integrate1D 0 (fun x => x ^ 2) 1 0 3 = -Integrate1D 0 (fun x => x ^ 2) 0 1 3 :=
  C4_reversed_bounds (fun x => x ^ 2) 0 0 1 3 ⟨by norm_num, by norm_num⟩

/-! ### Tensor-product reductions for 2D and 3D -/

theorem sum_glnodes_pair (n : ℕ) (g : ℝ × ℝ → ℝ) :
    (((glnodes n).map fun x => (x, glweight n x)).map g).sum
      = ∑ x ∈ glroots n, g (x, glweight n x) := by
  rw [List.map_map]
  exact sum_glnodes_map n fun x => g (x, glweight n x)

theorem zipfold2_eq (n : ℕ) (h : ℝ × ℝ → ℝ × ℝ → ℝ) (init : ℝ) :
    ((glnodes n).zip (glweights n)).foldl
        (fun acc xw =>
          ((glnodes n).zip (glweights n)).foldl (fun acc2 yw => acc2 + h xw yw) acc)
        init
      = init + ∑ x ∈ glroots n, ∑ y ∈ glroots n, h (x, glweight n x) (y, glweight n y) := by
  have hinner : ∀ (xw : ℝ × ℝ) (acc : ℝ),
      ((glnodes n).zip (glweights n)).foldl (fun acc2 yw => acc2 + h xw yw) acc
        = acc + ∑ y ∈ glroots n, h xw (y, glweight n y) := by
    intro xw acc
    rw [zip_glnodes_glweights, foldl_add_eq (h xw), sum_glnodes_pair n (h xw)]
  rw [show (fun (acc : ℝ) (xw : ℝ × ℝ) =>
        ((glnodes n).zip (glweights n)).foldl (fun acc2 yw => acc2 + h xw yw) acc)
      = fun acc xw => acc + ∑ y ∈ glroots n, h xw (y, glweight n y) from
      funext fun acc => funext fun xw => hinner xw acc]
  rw [zip_glnodes_glweights,
    foldl_add_eq fun xw : ℝ × ℝ => ∑ y ∈ glroots n, h xw (y, glweight n y),
    sum_glnodes_pair n fun xw => ∑ y ∈ glroots n, h xw (y, glweight n y)]

theorem zipfold3_eq (n : ℕ) (h : ℝ × ℝ → ℝ × ℝ → ℝ × ℝ → ℝ) (init : ℝ) :
    ((glnodes n).zip (glweights n)).foldl
        (fun acc xw =>
          ((glnodes n).zip (glweights n)).foldl
            (fun acc2 yw =>
              ((glnodes n).zip (glweights n)).foldl
                (fun acc3 zw => acc3 + h xw yw zw) acc2)
            acc)
        init
      = init + ∑ x ∈ glroots n, ∑ y ∈ glroots n, ∑ z ∈ glroots n,
          h (x, glweight n x) (y, glweight n y) (z, glweight n z) := by
  have hinner : ∀ (xw : ℝ × ℝ) (acc : ℝ),
      ((glnodes n).zip (glweights n)).foldl
          (fun acc2 yw =>
            ((glnodes n).zip (glweights n)).foldl
              (fun acc3 zw => acc3 + h xw yw zw) acc2)
          acc
        = acc + ∑ y ∈ glroots n, ∑ z ∈ glroots n,
            h xw (y, glweight n y) (z, glweight n z) :=
    fun xw acc => zipfold2_eq n (h xw) acc
  rw [show (fun (acc : ℝ) (xw : ℝ × ℝ) =>
        ((glnodes n).zip (glweights n)).foldl
          (fun acc2 yw =>
            ((glnodes n).zip (glweights n)).foldl
              (fun acc3 zw => acc3 + h xw yw zw) acc2)
          acc)
      = fun acc xw => acc + ∑ y ∈ glroots n, ∑ z ∈ glroots n,
          h xw (y, glweight n y) (z, glweight n z) from
      funext fun acc => funext fun xw => hinner xw acc]
  rw [zip_glnodes_glweights,
    foldl_add_eq fun xw : ℝ × ℝ => ∑ y ∈ glroots n, ∑ z ∈ glroots n,
      h xw (y, glweight n y) (z, glweight n z),
    sum_glnodes_pair n fun xw => ∑ y ∈ glroots n, ∑ z ∈ glroots n,
      h xw (y, glweight n y) (z, glweight n z)]

theorem zipfold2_affine (n : ℕ) (f : ℝ → ℝ → ℝ) (Xc1 Xc2 Yc1 Yc2 init : ℝ) :
    ((glnodes n).zip (glweights n)).foldl
        (fun acc xw =>
          ((glnodes n).zip (glweights n)).foldl
            (fun acc2 yw =>
              acc2 + f (Xc1 * xw.1 + Xc2) (Yc1 * yw.1 + Yc2) * (xw.2 * yw.2))
            acc)
        init
      = init + ∑ x ∈ glroots n, ∑ y ∈ glroots n,
          f (Xc1 * x + Xc2) (Yc1 * y + Yc2) * (glweight n x * glweight n y) :=
  zipfold2_eq n
    (fun xw yw => f (Xc1 * xw.1 + Xc2) (Yc1 * yw.1 + Yc2) * (xw.2 * yw.2)) init

theorem zipfold3_affine (n : ℕ) (f : ℝ → ℝ → ℝ → ℝ) (Xc1 Xc2 Yc1 Yc2 Zc1 Zc2 init : ℝ) :
    ((glnodes n).zip (glweights n)).foldl
        (fun acc xw =>
          ((glnodes n).zip (glweights n)).foldl
            (fun acc2 yw =>
              ((glnodes n).zip (glweights n)).foldl
                (fun acc3 zw =>
                  acc3 + f (Xc1 * xw.1 + Xc2) (Yc1 * yw.1 + Yc2) (Zc1 * zw.1 + Zc2) *
                    (xw.2 * (yw.2 * zw.2)))
                acc2)
            acc)
        init
      = init + ∑ x ∈ glroots n, ∑ y ∈ glroots n, ∑ z ∈ glroots n,
          f (Xc1 * x + Xc2) (Yc1 * y + Yc2) (Zc1 * z + Zc2) *
            (glweight n x * (glweight n y * glweight n z)) :=
  zipfold3_eq n
    (fun xw yw zw => f (Xc1 * xw.1 + Xc2) (Yc1 * yw.1 + Yc2) (Zc1 * zw.1 + Zc2) *
      (xw.2 * (yw.2 * zw.2))) init

theorem Integrate2D_eq (r : ℝ) (f : ℝ → ℝ → ℝ) (Xa Xb Ya Yb : ℝ) (order : ℕ)
    (h : 1 ≤ order) :
    Integrate2D r f Xa Xb Ya Yb order
      = (∑ x ∈ glroots order, ∑ y ∈ glroots order,
          f ((Xb - Xa) / 2 * x + (Xb + Xa) / 2) ((Yb - Ya) / 2 * y + (Yb + Ya) / 2)
            * (glweight order x * glweight order y))
        * ((Xb - Xa) / 2 * ((Yb - Ya) / 2)) := by
  have hsel := selected_rows order h
  simp only [Integrate2D]
  rw [hsel.1, hsel.2, zipfold2_affine, mul_zero, zero_add]

theorem Integrate3D_eq (r : ℝ) (f : ℝ → ℝ → ℝ → ℝ) (Xa Xb Ya Yb Za Zb : ℝ) (order : ℕ)
    (h : 1 ≤ order) :
    Integrate3D r f Xa Xb Ya Yb Za Zb order
      = (∑ x ∈ glroots order, ∑ y ∈ glroots order, ∑ z ∈ glroots order,
          f ((Xb - Xa) / 2 * x + (Xb + Xa) / 2) ((Yb - Ya) / 2 * y + (Yb + Ya) / 2)
              ((Zb - Za) / 2 * z + (Zb + Za) / 2)
            * (glweight order x * (glweight order y * glweight order z)))
        * ((Xb - Xa) / 2 * ((Yb - Ya) / 2 * ((Zb - Za) / 2))) := by
  have hsel := selected_rows order h
  simp only [Integrate3D]
  rw [hsel.1, hsel.2, zipfold3_affine, mul_zero, zero_add]

/-! ### C5: separable integrands, C7: table invariants -/

/-- C5: for separable integrands, `Integrate2D` (resp. `Integrate3D`) equals
the product of the corresponding 1D integrals, for every valid order. -/
theorem C5_separable (g h k : ℝ → ℝ) (r1 r2 r3 r4 : ℝ) (Xa Xb Ya Yb Za Zb : ℝ)
    (order : ℕ) (hord : 1 ≤ order) :
    Integrate2D r1 (fun x y => g x * h y) Xa Xb Ya Yb order
      = Integrate1D r2 g Xa Xb order * Integrate1D r3 h Ya Yb order ∧
    Integrate3D r1 (fun x y z => g x * h y * k z) Xa Xb Ya Yb Za Zb order
      = Integrate1D r2 g Xa Xb order * Integrate1D r3 h Ya Yb order
          * Integrate1D r4 k Za Zb order := by
  have h1 := Integrate1D_eq_quadSum r2 g Xa Xb order hord
  have h2 := Integrate1D_eq_quadSum r3 h Ya Yb order hord
  have h3 := Integrate1D_eq_quadSum r4 k Za Zb order hord
  constructor
  · rw [Integrate2D_eq r1 _ Xa Xb Ya Yb order hord, h1, h2, quadSum, quadSum]
    have hprod :
        ((∑ x ∈ glroots order,
            glweight order x * g ((Xb - Xa) / 2 * x + (Xb + Xa) / 2)) *
          ∑ y ∈ glroots order,
            glweight order y * h ((Yb - Ya) / 2 * y + (Yb + Ya) / 2))
          = ∑ x ∈ glroots order, ∑ y ∈ glroots order,
              g ((Xb - Xa) / 2 * x + (Xb + Xa) / 2) * h ((Yb - Ya) / 2 * y + (Yb + Ya) / 2)
                * (glweight order x * glweight order y) := by
      rw [Finset.sum_mul_sum]
      exact Finset.sum_congr rfl fun x _ => Finset.sum_congr rfl fun y _ => by ring
    rw [← hprod]
    ring
  · rw [Integrate3D_eq r1 _ Xa Xb Ya Yb Za Zb order hord, h1, h2, h3, quadSum, quadSum,
      quadSum]
    have hprod :
        ((∑ x ∈ glroots order,
            glweight order x * g ((Xb - Xa) / 2 * x + (Xb + Xa) / 2)) *
              (∑ y ∈ glroots order,
                glweight order y * h ((Yb - Ya) / 2 * y + (Yb + Ya) / 2)) *
            ∑ z ∈ glroots order,
              glweight order z * k ((Zb - Za) / 2 * z + (Zb + Za) / 2))
          = ∑ x ∈ glroots order, ∑ y ∈ glroots order, ∑ z ∈ glroots order,
              g ((Xb - Xa) / 2 * x + (Xb + Xa) / 2) * h ((Yb - Ya) / 2 * y + (Yb + Ya) / 2)
                  * k ((Zb - Za) / 2 * z + (Zb + Za) / 2)
                * (glweight order x * (glweight order y * glweight order z)) := by
      rw [Finset.sum_mul_sum, Finset.sum_mul]
      refine Finset.sum_congr rfl fun x _ => ?_
      rw [Finset.sum_mul]
      refine Finset.sum_congr rfl fun y _ => ?_
      rw [Finset.mul_sum]
      exact Finset.sum_congr rfl fun z _ => by ring
    rw [← hprod]
    ring

/-- Witness for C5 at order 2 with concrete separable integrands. -/
theorem C5_separable_witness :
    Integrate2D 0 (fun x y => x * y) 0 1 0 2 2
        = Integrate1D 0 (fun x => x) 0 1 2 * Integrate1D 0 (fun y => y) 0 2 2 ∧
    Integrate3D 0 (fun x y z => x * y * z) 0 1 0 2 0 3 2
        = Integrate1D 0 (fun x => x) 0 1 2 * Integrate1D 0 (fun y => y) 0 2 2
            * Integrate1D 0 (fun z => z) 0 3 2 :=
  C5_separable (fun x => x) (fun y => y) (fun z => z) 0 0 0 0 0 1 0 2 0 3 2 (by norm_num)

/-- The row of a constructed table holding order `n`. -/
theorem mkTables_row (order_from order_to n : ℕ) (h2 : order_from ≤ n)
    (h3 : n ≤ order_to) :
    (mkTables order_from order_to).Lroots[n - order_from]? = some (glnodes n) ∧
      (mkTables order_from order_to).Weight[n - order_from]? = some (glweights n) := by
  have hlt : n - order_from < order_to + 1 - order_from := by omega
  have hfix : order_from + (n - order_from) = n := by omega
  constructor <;>
    simp [mkTables, List.getElem?_map, List.getElem?_range, hlt, hfix]

theorem length_glnodes (n : ℕ) : (glnodes n).length = n := by
  rw [glnodes, Finset.length_sort]
  exact (glroots_spec n).1

/-- C7: for every order `n` in the range of a constructed table, the stored
root and weight lists both have length `n`; the roots are in strictly
ascending order, lie strictly inside `(-1, 1)` and are symmetric about 0
(negating the root list reverses it); the weight list is a palindrome, its
entries are strictly positive and they sum to 2.  (The Lean embedding is
immutable by construction, matching the no-mutation-after-construction
invariant.) -/
theorem C7_table_invariants (order_from order_to n : ℕ) (h1 : 1 ≤ order_from)
    (h2 : order_from ≤ n) (h3 : n ≤ order_to) :
    ((mkTables order_from order_to).Lroots[n - order_from]?).getD [] = glnodes n ∧
    ((mkTables order_from order_to).Weight[n - order_from]?).getD [] = glweights n ∧
    (glnodes n).length = n ∧ (glweights n).length = n ∧
    List.Chain' (· < ·) (glnodes n) ∧
    (∀ x ∈ glnodes n, -1 < x ∧ x < 1) ∧
    (glnodes n).map (fun x => -x) = (glnodes n).reverse ∧
    (glweights n).reverse = glweights n ∧
    (∀ w ∈ glweights n, 0 < w) ∧
    (glweights n).sum = 2 := by
  have hrow := mkTables_row order_from order_to n h2 h3
  have hnpos : 1 ≤ n := by omega
  refine ⟨by rw [hrow.1]; rfl, by rw [hrow.2]; rfl, length_glnodes n,
    by rw [length_glweights, length_glnodes], ?_, ?_, glnodes_map_neg n,
    glweights_reverse n, ?_, ?_⟩
  · exact List.Pairwise.chain' (glnodes_sorted n)
  · intro x hx
    have hmem : x ∈ glroots n := by rwa [glnodes, Finset.mem_sort] at hx
    exact (glroots_spec n).2 x hmem
  · intro w hw
    rw [glweights, List.mem_map] at hw
    obtain ⟨x, hx, rfl⟩ := hw
    have hmem : x ∈ glroots n := by rwa [glnodes, Finset.mem_sort] at hx
    exact glweight_pos n hnpos hmem
  · rw [glweights, sum_glnodes_map]
    exact glweight_total n hnpos

/-- Witness for C7: the static table range at order 1. -/
theorem C7_table_invariants_witness :
    ((mkTables 1 10).Lroots[1 - 1]?).getD [] = glnodes 1 ∧
    ((mkTables 1 10).Weight[1 - 1]?).getD [] = glweights 1 ∧
    (glnodes 1).length = 1 ∧ (glweights 1).length = 1 ∧
    List.Chain' (· < ·) (glnodes 1) ∧
    (∀ x ∈ glnodes 1, -1 < x ∧ x < 1) ∧
    (glnodes 1).map (fun x => -x) = (glnodes 1).reverse ∧
    (glweights 1).reverse = glweights 1 ∧
    (∀ w ∈ glweights 1, 0 < w) ∧
    (glweights 1).sum = 2 :=
  C7_table_invariants 1 10 1 le_rfl le_rfl (by norm_num)

/-- Witness for C6 at orders 2 (in range), 0 and -3 (out of range). -/
theorem C6_access_safety_witness :
    ((∃ v1, Integrate1DChecked 0 (fun x => x) 0 1 2 = Except.ok v1) ∧
      (∃ v2, Integrate2DChecked 0 (fun x y => x * y) 0 1 0 1 2 = Except.ok v2) ∧
      (∃ v3, Integrate3DChecked 0 (fun x y z => x * y * z) 0 1 0 1 0 1 2 = Except.ok v3)) ∧
    Integrate1DChecked 0 (fun x => x) 0 1 0
        = Except.error (if (0 : ℤ) = 0 then QuadErr.oobIndex else QuadErr.ubConstruct) ∧
    Integrate1DChecked 0 (fun x => x) 0 1 (-3)
        = Except.error (if (-3 : ℤ) = 0 then QuadErr.oobIndex else QuadErr.ubConstruct) := by
  refine ⟨C6_access_safety.1 2 0 (fun x => x) (fun x y => x * y) (fun x y z => x * y * z)
      0 1 0 1 0 1 (by norm_num) (by norm_num), ?_, ?_⟩
  · exact (C6_access_safety.2 0 0 (fun x => x) (fun x y => x * y) (fun x y z => x * y * z)
      0 1 0 1 0 1 (by norm_num) (by norm_num)).1
  · exact (C6_access_safety.2 (-3) 0 (fun x => x) (fun x y => x * y) (fun x y z => x * y * z)
      0 1 0 1 0 1 (by norm_num) (by norm_num)).1

end

end chrono
